import Mathlib

/-!
# Verification of the amps workflow parser / executor

Shallow embedding of the `amps` workflow engine:

* `packages/workflow/src/expressions.ts` — expression evaluation, string
  interpolation, condition evaluation, `resolveExpression`;
* `packages/workflow/src/parser.ts` — the recursive-descent markup parser
  (props, tags, node builders, frontmatter);
* the workflow executor (`WorkflowExecutor`) — context accumulation,
  node handlers, loop isolation, human-input fallbacks.

Modelling conventions, used throughout:

* JavaScript values are modelled by `Amps.Value`; numbers are modelled as
  integers plus a separate `nan` value (the engine's claims under study never
  depend on non-integral arithmetic), and object/array identity is not
  modelled — equality of `Value`s is structural.
* JavaScript records (`Record<string, any>`) are association lists with
  JS-object update semantics (`recSet` replaces in place or appends).
* Exceptions are modelled with `Except`; a total Lean function models a
  JS function that never throws.
* The host-language expression evaluator invoked via `new Function` is not
  part of the repository; it is modelled (see `jsEvalE`) on a fragment of
  JS expressions, faithful to the behaviours the specification relies on:
  evaluation failures (syntax errors, reference errors, member access on
  `undefined`/`null`) are `Except.error`.
* The LLM streaming client, the input resolver, sub-flow execution and the
  clock are external collaborators; they enter as components of `Env`.
-/

set_option autoImplicit false

namespace Amps

/-- A JavaScript value.  `num` models JS numbers restricted to integers;
`nan` models `NaN` (so `Number(...)` coercions that fail are representable).
Structural equality stands in for JS `===` on primitives; object identity is
not modelled. -/
inductive Value where
  | undef
  | null
  | bool (b : Bool)
  | num (n : Int)
  | nan
  | str (s : String)
  | arr (elems : List Value)
  | obj (fields : List (String × Value))
deriving Repr, BEq

/-- JS-object model: an association list keyed by strings, first key wins. -/
abbrev Rec := List (String × Value)

/-- First binding of key `k`, if any. -/
def recFind (r : Rec) (k : String) : Option Value :=
  match r with
  | [] => none
  | (k₁, v₁) :: rest => if k₁ = k then some v₁ else recFind rest k

/-- JS property read: `r[k]`, `undefined` when absent. -/
def recGet (r : Rec) (k : String) : Value :=
  (recFind r k).getD Value.undef

/-- JS `k in r`. -/
def recHas (r : Rec) (k : String) : Bool :=
  (recFind r k).isSome

/-- JS property write `r[k] = v`: replaces the binding in place, or appends
a new binding (matching JS object key ordering). -/
def recSet (r : Rec) (k : String) (v : Value) : Rec :=
  match r with
  | [] => [(k, v)]
  | (k₁, v₁) :: rest => if k₁ = k then (k, v) :: rest else (k₁, v₁) :: recSet rest k v

/-- JS spread merge `{...a, ...b}`. -/
def recMerge (a b : Rec) : Rec :=
  b.foldl (fun acc kv => recSet acc kv.1 kv.2) a

/-- JS truthiness (`Boolean(v)`). -/
def toBool : Value → Bool
  | .undef => false
  | .null => false
  | .bool b => b
  | .num n => n ≠ 0
  | .nan => false
  | .str s => s ≠ ""
  | .arr _ => true
  | .obj _ => true

mutual

/-- JS `String(v)` conversion (`Array.prototype.toString` joins elements with
commas, `null`/`undefined` elements becoming empty). -/
def jsToString : Value → String
  | .undef => "undefined"
  | .null => "null"
  | .bool b => if b then "true" else "false"
  | .num n => toString n
  | .nan => "NaN"
  | .str s => s
  | .arr xs => jsJoinComma xs
  | .obj _ => "[object Object]"

def jsJoinComma : List Value → String
  | [] => ""
  | [v] => jsElemString v
  | v :: rest => jsElemString v ++ "," ++ jsJoinComma rest

/-- Element stringification inside `Array.prototype.join`: like
`String(v)` except that `null`/`undefined` render empty.  (The branches are
spelled out so the mutual recursion stays structural.) -/
def jsElemString : Value → String
  | .undef => ""
  | .null => ""
  | .bool b => if b then "true" else "false"
  | .num n => toString n
  | .nan => "NaN"
  | .str s => s
  | .arr xs => jsJoinComma xs
  | .obj _ => "[object Object]"

end

/-- JS `s.trim()` (structural, so concrete runs reduce in the kernel). -/
def jsTrim (s : String) : String :=
  String.mk (((s.data.dropWhile Char.isWhitespace).reverse.dropWhile
    Char.isWhitespace).reverse)

/-- Decimal digits to `Nat` (structural replacement for `String.toNat!`). -/
def charsToNat (digits : List Char) : Nat :=
  digits.foldl (fun n c => n * 10 + (c.toNat - 48)) 0

/-- Lower-casing of a character list (models `/i` regex flags and
`String.prototype.toLowerCase` on the ASCII fragment). -/
def lowerChars (cs : List Char) : List Char :=
  cs.map Char.toLower

/-- `Array.prototype.join(sep)` (also the model of `String.intercalate`,
kept structural). -/
def joinSep (sep : String) : List String → String
  | [] => ""
  | [x] => x
  | x :: rest => x ++ sep ++ joinSep sep rest

/-- The single-quote character, written via its code point. -/
def squote : Char := Char.ofNat 39

/-- The backtick character, written via its code point. -/
def btick : Char := Char.ofNat 96

/-- Opening brace character. -/
def obrace : Char := Char.ofNat 123

/-- Closing brace character. -/
def cbrace : Char := Char.ofNat 125

/-- JS `Number(string)` conversion, on the integer fragment: optional
whitespace, optional sign, digits.  The empty (or all-whitespace) string is
`0`; anything else is `NaN` (`none`).  Non-integer numerals are outside the
modelled fragment. -/
def jsNumberOfString (s : String) : Option Int :=
  let t := jsTrim s
  if t = "" then some 0
  else
    let (sign, digits) :=
      match t.data with
      | '-' :: rest => ((-1 : Int), rest)
      | '+' :: rest => ((1 : Int), rest)
      | l => ((1 : Int), l)
    if digits ≠ [] ∧ digits.all Char.isDigit then
      some (sign * (charsToNat digits : Int))
    else none

/-- JS `Number(v)` coercion into the `Value` model (`num` or `nan`). -/
def jsToNumberV : Value → Value
  | .num n => .num n
  | .nan => .nan
  | .bool b => .num (if b then 1 else 0)
  | .null => .num 0
  | .undef => .nan
  | .str s => match jsNumberOfString s with
      | some n => .num n
      | none => .nan
  | .arr [] => .num 0
  | .arr [v] => jsToNumberV v
  | .arr _ => .nan
  | .obj _ => .nan

-- ─── Host-language expression evaluation (models `new Function`) ───────────

/-- AST of the modelled host-language expression fragment. -/
inductive JExpr where
  | lit (v : Value)
  | ident (name : String)
  | member (target : JExpr) (field : String)
  | arrayLit (elems : List JExpr)
deriving Repr

/-- Identifier characters (`\w`, `$`). -/
def isIdentChar (c : Char) : Bool :=
  c.isAlphanum || c = '_' || c = '$'

def isIdentStart (c : Char) : Bool :=
  c.isAlpha || c = '_' || c = '$'

mutual

/-- Recursive-descent parse of one expression from `cs`; returns the parsed
expression and the remaining characters.  `none` is a syntax error. -/
def parseJE (fuel : Nat) (cs : List Char) : Option (JExpr × List Char) :=
  match fuel with
  | 0 => none
  | fuel + 1 =>
    match parseJPrimary fuel (skipWs cs) with
    | none => none
    | some (e, rest) => parseJPostfix fuel e (skipWs rest)

def parseJPrimary (fuel : Nat) (cs : List Char) : Option (JExpr × List Char) :=
  match fuel with
  | 0 => none
  | fuel + 1 =>
    match cs with
    | [] => none
    | c :: rest =>
      if c = '[' then
        match skipWs rest with
        | ']' :: rest₁ => some (.arrayLit [], rest₁)
        | rest₀ => parseJArrayElems fuel rest₀ []
      else if c = '"' ∨ c = squote then
        match parseJString fuel c rest [] with
        | none => none
        | some (s, rest₁) => some (.lit (.str s), rest₁)
      else if c.isDigit then
        let digits := (c :: rest).takeWhile Char.isDigit
        let rest₁ := (c :: rest).dropWhile Char.isDigit
        some (.lit (.num (charsToNat digits)), rest₁)
      else if c = '-' && (match rest with | d :: _ => d.isDigit | [] => false) then
        let digits := rest.takeWhile Char.isDigit
        let rest₁ := rest.dropWhile Char.isDigit
        some (.lit (.num (-(charsToNat digits) : Int)), rest₁)
      else if isIdentStart c then
        let name := String.mk ((c :: rest).takeWhile isIdentChar)
        let rest₁ := (c :: rest).dropWhile isIdentChar
        if name = "true" then some (.lit (.bool true), rest₁)
        else if name = "false" then some (.lit (.bool false), rest₁)
        else if name = "null" then some (.lit .null, rest₁)
        else some (.ident name, rest₁)
      else none

def parseJArrayElems (fuel : Nat) (cs : List Char) (acc : List JExpr) :
    Option (JExpr × List Char) :=
  match fuel with
  | 0 => none
  | fuel + 1 =>
    match parseJE fuel cs with
    | none => none
    | some (e, rest) =>
      match skipWs rest with
      | ',' :: rest₁ => parseJArrayElems fuel (skipWs rest₁) (acc ++ [e])
      | ']' :: rest₁ => some (.arrayLit (acc ++ [e]), rest₁)
      | _ => none

def parseJString (fuel : Nat) (quote : Char) (cs : List Char) (acc : List Char) :
    Option (String × List Char) :=
  match fuel with
  | 0 => none
  | fuel + 1 =>
    match cs with
    | [] => none
    | '\\' :: c :: rest => parseJString fuel quote rest (acc ++ [c])
    | c :: rest =>
      if c = quote then some (String.mk acc, rest)
      else parseJString fuel quote rest (acc ++ [c])

def parseJPostfix (fuel : Nat) (e : JExpr) (cs : List Char) : Option (JExpr × List Char) :=
  match fuel with
  | 0 => none
  | fuel + 1 =>
    match cs with
    | '.' :: rest =>
      match rest with
      | c :: _ =>
        if isIdentStart c then
          let name := String.mk (rest.takeWhile isIdentChar)
          let rest₁ := rest.dropWhile isIdentChar
          parseJPostfix fuel (.member e name) (skipWs rest₁)
        else none
      | [] => none
    | _ => some (e, cs)

def skipWs (cs : List Char) : List Char :=
  cs.dropWhile Char.isWhitespace

end

/-- Parse a whole expression string; syntax error unless the entire input is
one expression. -/
def parseJFull (s : String) : Option JExpr :=
  match parseJE (s.length * 2 + 8) s.data with
  | some (e, rest) => if skipWs rest = [] then some e else none
  | none => none

mutual

/-- Evaluate a parsed host-language expression against a scope.  Unknown
identifiers raise a reference error; member access on `undefined`/`null`
raises a type error (all modelled as `Except.error`). -/
def evalJ (scope : Rec) : JExpr → Except String Value
  | .lit v => .ok v
  | .ident n =>
    -- Builtins are appended after the scope parameters in the source, so a
    -- builtin name shadows a same-named scope binding.
    if n = "undefined" then .ok .undef
    else if n = "NaN" then .ok .nan
    else
      match recFind scope n with
      | some v => .ok v
      | none => .error ("ReferenceError: " ++ n ++ " is not defined")
  | .member target field =>
    match evalJ scope target with
    | .error e => .error e
    | .ok v =>
      match v with
      | .undef => .error "TypeError: cannot read properties of undefined"
      | .null => .error "TypeError: cannot read properties of null"
      | .obj fields => .ok (recGet fields field)
      | .arr xs => if field = "length" then .ok (.num xs.length) else .ok .undef
      | .str s => if field = "length" then .ok (.num s.length) else .ok .undef
      | _ => .ok .undef
  | .arrayLit elems => (evalJList scope elems).map .arr

def evalJList (scope : Rec) : List JExpr → Except String (List Value)
  | [] => .ok []
  | e :: rest =>
    match evalJ scope e with
    | .error err => .error err
    | .ok v =>
      match evalJList scope rest with
      | .error err => .error err
      | .ok vs => .ok (v :: vs)

end

/-- Modelled from the spec: the host-language evaluation that
`evaluateExpression` performs via `new Function(...keys, "return (" +
trimmed + ")")` — function construction throws on a syntax error and the
call throws on reference/type errors; both are modelled as `Except.error`.
The modelled fragment: literals (integers, quoted strings, `true`, `false`,
`null`), identifiers resolved in the scope (with the injected builtins
`undefined` and `NaN` shadowing the scope, as the later-positioned function
parameters do in the source), member access chains, and array literals. -/
def jsEvalE (trimmed : String) (scope : Rec) : Except String Value :=
  match parseJFull trimmed with
  | none => .error "SyntaxError"
  | some e => evalJ scope e

/-- `evaluateExpression(expr, scope)` from `expressions.ts`: trim, empty
expressions are `undefined`, and any evaluation failure is caught and
converted to `undefined`. -/
def evaluateExpression (expr : String) (scope : Rec) : Value :=
  let trimmed := jsTrim expr
  if trimmed = "" then .undef
  else
    match jsEvalE trimmed scope with
    | .ok v => v
    | .error _ => Value.undef

/-- `evaluateCondition(expr, scope)` from `expressions.ts`. -/
def evaluateCondition (expr : String) (scope : Rec) : Bool :=
  toBool (evaluateExpression expr scope)

-- ─── String interpolation (`interpolateString`) ────────────────────────────

/-- `cs[i]` as an `Option`. -/
def charAt (cs : List Char) (i : Nat) : Option Char :=
  cs.get? i

/-- JS `s.slice(a, b)` on character lists. -/
def sliceChars (cs : List Char) (a b : Nat) : List Char :=
  (cs.take b).drop a

/-- JS `s.startsWith(pat, i)`. -/
def listStartsWith (cs : List Char) (i : Nat) (pat : List Char) : Bool :=
  pat.isPrefixOf (cs.drop i)

/-- JS `s.indexOf(pat, i)` (`none` for `-1`); fuelled structural scan, the
wrapper supplies always-sufficient fuel. -/
def findSubFromGo (cs pat : List Char) : Nat → Nat → Option Nat
  | 0, _ => none
  | fuel + 1, i =>
    if i > cs.length then none
    else if pat.isPrefixOf (cs.drop i) then some i
    else findSubFromGo cs pat fuel (i + 1)

def findSubFrom (cs pat : List Char) (i : Nat) : Option Nat :=
  findSubFromGo cs pat (cs.length + 2) i

/-- The brace-depth scanner inside `interpolateString`: walks `t` from `j`
with the given depth, string-literal state and escape state, and returns the
final position and depth when the loop `while (j < len && depth > 0)`
exits.  Inside a string literal only the closing quote is recognised;
escapes skip the next character.  Fuelled: the position strictly increases
each step, so the caller's fuel is always sufficient. -/
def interpScanBrace (t : List Char) : Nat → Nat → Nat → Option Char → Bool → Nat × Nat
  | 0, j, depth, _, _ => (j, depth)
  | fuel + 1, j, depth, inString, escaped =>
    if j ≥ t.length then (j, depth)
    else if depth = 0 then (j, depth)
    else
      let ch := (charAt t j).getD ' '
      if escaped then interpScanBrace t fuel (j + 1) depth inString false
      else if ch = '\\' then interpScanBrace t fuel (j + 1) depth inString true
      else
        match inString with
        | some q =>
          if ch = q then interpScanBrace t fuel (j + 1) depth none false
          else interpScanBrace t fuel (j + 1) depth (some q) false
        | none =>
          if ch = squote ∨ ch = '"' ∨ ch = btick then
            interpScanBrace t fuel (j + 1) depth (some ch) false
          else if ch = obrace then interpScanBrace t fuel (j + 1) (depth + 1) none false
          else if ch = cbrace then interpScanBrace t fuel (j + 1) (depth - 1) none false
          else interpScanBrace t fuel (j + 1) depth none false

/-- Stringification of an interpolated value:
`value === undefined || value === null ? "" : String(value)`. -/
def interpValueString : Value → String
  | .undef => ""
  | .null => ""
  | v => jsToString v

/-- Main scan loop of `interpolateString`.  The position strictly increases
at every step, so `t.length + 1` fuel is always sufficient; on (unreachable)
fuel exhaustion the segments collected so far are returned. -/
def interpGo (t : List Char) (scope : Rec) : Nat → Nat → List String → List String
  | 0, _, segments => segments
  | fuel + 1, i, segments =>
    if i ≥ t.length then segments
    else if charAt t i = some obrace then
      -- MDX comment {/* ... */} — skipped, not evaluated
      if listStartsWith t i [obrace, '/', '*'] ∧
          (findSubFrom t ['*', '/', cbrace] i).isSome then
        match findSubFrom t ['*', '/', cbrace] i with
        | some endComment => interpGo t scope fuel (endComment + 3) segments
        | none => segments
      else
        let exprStart := i + 1
        let (j, depth) := interpScanBrace t (t.length + 2) exprStart 1 none false
        if depth = 0 then
          let exprBody := String.mk (sliceChars t exprStart (j - 1))
          let value := evaluateExpression exprBody scope
          interpGo t scope fuel j (segments ++ [interpValueString value])
        else
          interpGo t scope fuel exprStart (segments ++ ["\x7b"])
    else
      match findSubFrom t [obrace] i with
      | none => segments ++ [String.mk (t.drop i)]
      | some next => interpGo t scope fuel next (segments ++ [String.mk (sliceChars t i next)])

/-- `interpolateString(template, scope)` from `expressions.ts`. -/
def interpolateString (template : String) (scope : Rec) : String :=
  String.join (interpGo template.data scope (template.length + 1) 0 [])

/-- `Expression` from `types.ts`: raw source text plus a static flag. -/
structure Expression where
  raw : String
  isStatic : Bool
deriving Repr, BEq

/-- `resolveExpression(expr, scope)` from `expressions.ts`: static
expressions return the raw string unchanged; dynamic ones are evaluated. -/
def resolveExpression (expr : Expression) (scope : Rec) : Value :=
  if expr.isStatic then .str expr.raw
  else evaluateExpression expr.raw scope

end Amps

namespace Amps

-- ─── JSON (models the host `JSON` builtin) ─────────────────────────────────

/-- JSON string escaping for `JSON.stringify`. -/
def jsonEscape (s : String) : String :=
  String.join (s.data.map fun c =>
    if c = '"' then "\\\""
    else if c = '\\' then "\\\\"
    else if c = '\n' then "\\n"
    else if c = '\t' then "\\t"
    else if c = '\r' then "\\r"
    else String.mk [c])

/-- Indentation prefix used by `JSON.stringify(v, null, 2)`. -/
def jsonPad (ind : Nat) : String :=
  String.join (List.replicate ind "  ")

mutual

/-- Modelled from the spec: the host `JSON.stringify(v, null, 2)` on the
`Value` model.  `undefined` has no JSON representation (`none`); inside
arrays it becomes `null`, inside objects the entry is omitted; `NaN`
stringifies as `null`. -/
def jstr (ind : Nat) : Value → Option String
  | .undef => none
  | .null => some "null"
  | .nan => some "null"
  | .bool b => some (if b then "true" else "false")
  | .num n => some (toString n)
  | .str s => some ("\"" ++ jsonEscape s ++ "\"")
  | .arr xs =>
    match jstrElems ind xs with
    | [] => some "[]"
    | items => some ("[\n" ++
        joinSep ",\n" (items.map fun it => jsonPad (ind + 1) ++ it) ++
        "\n" ++ jsonPad ind ++ "]")
  | .obj fs =>
    match jstrFields ind fs with
    | [] => some "\x7b\x7d"
    | items => some ("\x7b\n" ++
        joinSep ",\n" (items.map fun it => jsonPad (ind + 1) ++ it) ++
        "\n" ++ jsonPad ind ++ "\x7d")

def jstrElems (ind : Nat) : List Value → List String
  | [] => []
  | v :: rest => ((jstr (ind + 1) v).getD "null") :: jstrElems ind rest

def jstrFields (ind : Nat) : List (String × Value) → List String
  | [] => []
  | (k, v) :: rest =>
    match jstr (ind + 1) v with
    | none => jstrFields ind rest
    | some s => ("\"" ++ jsonEscape k ++ "\": " ++ s) :: jstrFields ind rest

end

/-- `JSON.stringify(v, null, 2)` as it appears interpolated into template
strings (an unrepresentable value renders as `undefined`). -/
def jsonStringify2 (v : Value) : String :=
  (jstr 0 v).getD "undefined"

mutual

/-- Modelled from the spec: compact `JSON.stringify(v)` on the `Value`
model (used by `handleSelect` to derive option values). -/
def jstrC : Value → Option String
  | .undef => none
  | .null => some "null"
  | .nan => some "null"
  | .bool b => some (if b then "true" else "false")
  | .num n => some (toString n)
  | .str s => some ("\"" ++ jsonEscape s ++ "\"")
  | .arr xs => some ("[" ++ joinSep "," (jstrCElems xs) ++ "]")
  | .obj fs => some ("\x7b" ++ joinSep "," (jstrCFields fs) ++ "\x7d")

def jstrCElems : List Value → List String
  | [] => []
  | v :: rest => ((jstrC v).getD "null") :: jstrCElems rest

def jstrCFields : List (String × Value) → List String
  | [] => []
  | (k, v) :: rest =>
    match jstrC v with
    | none => jstrCFields rest
    | some s => ("\"" ++ jsonEscape k ++ "\":" ++ s) :: jstrCFields rest

end

def jsonStringifyC (v : Value) : String :=
  (jstrC v).getD "undefined"

-- ─── JSON.parse model ──────────────────────────────────────────────────────

def isJsonWs (c : Char) : Bool :=
  c = ' ' ∨ c = '\n' ∨ c = '\t' ∨ c = '\r'

def skipJsonWs (cs : List Char) : List Char :=
  cs.dropWhile isJsonWs

/-- Integer-fragment JSON numeral. -/
def jparseNumber (cs : List Char) : Option (Value × List Char) :=
  let (sign, cs₁) : Int × List Char :=
    match cs with
    | '-' :: rest => (-1, rest)
    | l => (1, l)
  let digits := cs₁.takeWhile Char.isDigit
  let rest := cs₁.dropWhile Char.isDigit
  if digits = [] then none
  else
    match rest with
    | '.' :: _ => none   -- non-integer numerals: outside the modelled fragment
    | 'e' :: _ => none
    | 'E' :: _ => none
    | _ => some (.num (sign * (charsToNat digits : Int)), rest)

mutual

/-- Modelled from the spec: the host `JSON.parse` on the modelled value
fragment (objects, arrays, strings with basic escapes, integer numerals,
`true`/`false`/`null`).  `none` models a thrown `SyntaxError`; non-integer
numerals are outside the modelled fragment and also yield `none`. -/
def jparseVal (fuel : Nat) (cs : List Char) : Option (Value × List Char) :=
  match fuel with
  | 0 => none
  | fuel + 1 =>
    match skipJsonWs cs with
    | [] => none
    | c :: rest =>
      if c = obrace then
        match skipJsonWs rest with
        | d :: rest₁ =>
          if d = cbrace then some (.obj [], rest₁)
          else jparseMembers fuel (d :: rest₁) []
        | [] => none
      else if c = '[' then
        match skipJsonWs rest with
        | d :: rest₁ =>
          if d = ']' then some (.arr [], rest₁)
          else jparseElems fuel (d :: rest₁) []
        | [] => none
      else if c = '"' then
        match jparseString fuel rest [] with
        | some (s, rest₁) => some (.str s, rest₁)
        | none => none
      else if c.isDigit ∨ c = '-' then
        jparseNumber (c :: rest)
      else if listStartsWith (c :: rest) 0 "true".data then
        some (.bool true, (c :: rest).drop 4)
      else if listStartsWith (c :: rest) 0 "false".data then
        some (.bool false, (c :: rest).drop 5)
      else if listStartsWith (c :: rest) 0 "null".data then
        some (.null, (c :: rest).drop 4)
      else none

def jparseMembers (fuel : Nat) (cs : List Char) (acc : Rec) :
    Option (Value × List Char) :=
  match fuel with
  | 0 => none
  | fuel + 1 =>
    match skipJsonWs cs with
    | '"' :: rest =>
      match jparseString fuel rest [] with
      | none => none
      | some (k, rest₁) =>
        match skipJsonWs rest₁ with
        | ':' :: rest₂ =>
          match jparseVal fuel rest₂ with
          | none => none
          | some (v, rest₃) =>
            match skipJsonWs rest₃ with
            | ',' :: rest₄ => jparseMembers fuel rest₄ (recSet acc k v)
            | d :: rest₄ =>
              if d = cbrace then some (.obj (recSet acc k v), rest₄) else none
            | [] => none
        | _ => none
    | _ => none

def jparseElems (fuel : Nat) (cs : List Char) (acc : List Value) :
    Option (Value × List Char) :=
  match fuel with
  | 0 => none
  | fuel + 1 =>
    match jparseVal fuel cs with
    | none => none
    | some (v, rest) =>
      match skipJsonWs rest with
      | ',' :: rest₁ => jparseElems fuel rest₁ (acc ++ [v])
      | ']' :: rest₁ => some (.arr (acc ++ [v]), rest₁)
      | _ => none

def jparseString (fuel : Nat) (cs : List Char) (acc : List Char) :
    Option (String × List Char) :=
  match fuel with
  | 0 => none
  | fuel + 1 =>
    match cs with
    | [] => none
    | '"' :: rest => some (String.mk acc, rest)
    | '\\' :: e :: rest =>
      if e = 'n' then jparseString fuel rest (acc ++ ['\n'])
      else if e = 't' then jparseString fuel rest (acc ++ ['\t'])
      else if e = 'r' then jparseString fuel rest (acc ++ ['\r'])
      else if e = '"' ∨ e = '\\' ∨ e = '/' then jparseString fuel rest (acc ++ [e])
      else none
    | c :: rest => jparseString fuel rest (acc ++ [c])

end

/-- `JSON.parse(s)`: whole-input parse (`none` models a `SyntaxError`). -/
def jsonParse (s : String) : Option Value :=
  match jparseVal (s.length * 2 + 8) s.data with
  | some (v, rest) => if skipJsonWs rest = [] then some v else none
  | none => none

end Amps

namespace Amps

-- ─── Data model (`types.ts`) ───────────────────────────────────────────────

/-- `FieldDef` from `types.ts` (recursive: list/object fields own children).
`type` is kept as a raw string: the parser casts unchecked, and only the
validator restricts it to the five recognised kinds. -/
inductive FieldDef where
  | mk (name : Option String) (type : String) (description : Option String)
      (children : Option (List FieldDef))
deriving Repr

def FieldDef.name : FieldDef → Option String
  | .mk n _ _ _ => n

def FieldDef.type : FieldDef → String
  | .mk _ t _ _ => t

def FieldDef.description : FieldDef → Option String
  | .mk _ _ d _ => d

def FieldDef.children : FieldDef → Option (List FieldDef)
  | .mk _ _ _ c => c

/-- `InputDef` from `types.ts`.  `default = Value.undef` models an absent
default (the executor tests `inputDef.default !== undefined`). -/
inductive InputDef where
  | mk (name : String) (type : String) (required : Bool) (default : Value)
      (elementType : Option String) (children : Option (List (String × InputDef)))
deriving Repr

def InputDef.name : InputDef → String
  | .mk n _ _ _ _ _ => n

def InputDef.default : InputDef → Value
  | .mk _ _ _ d _ _ => d

/-- `WorkflowNode` from `types.ts`: the closed variant type of node kinds.
Numeric props (`temperature`, `maxTokens`, `maxResults`) are `Value`s
(`num` or `nan`, as produced by the parser's `Number(...)` conversions);
`stop` holds the JSON value parsed by the Generation builder. -/
inductive WorkflowNode where
  | prose (content : String)
  | generation (name : String) (model : Option String) (temperature : Option Value)
      (maxTokens : Option Value) (stop : Option Value)
  | structured (name : String) (model : Option String) (fields : List FieldDef)
  | websearch (name : String) (query : Expression) (maxResults : Option Value)
      (provider : Option String)
  | webfetch (name : String) (url : Expression) (maxTokens : Option Value)
      (selector : Option String)
  | loop (name : String) (over : Option Expression) (count : Option Expression)
      (children : List WorkflowNode)
  | ifNode (condition : Expression) (children : List WorkflowNode)
      (elseChildren : Option (List WorkflowNode))
  | set (name : String) (value : Expression)
  | log (level : Option String) (content : String)
  | comment
  | flow (name : String) (src : String) (inputs : Option (List (String × Expression)))
  | prompt (name : String) (message : Expression) (default : Option Expression)
      (inputType : Option String)
  | select (name : String) (message : Expression) (options : Expression)
      (labelKey : Option String) (valueKey : Option String)
  | confirm (name : String) (message : Expression) (default : Option Expression)
deriving Repr

/-- `WorkflowDefinition` from `types.ts`. -/
structure WorkflowDefinition where
  name : String
  description : Option String
  inputs : List InputDef
  outputs : Option (List String)
  nodes : List WorkflowNode
deriving Repr

/-- `WorkflowContext` from `types.ts`: the three pieces of mutable
execution state. -/
structure WorkflowContext where
  inputs : Rec
  outputs : Rec
  contextStack : List String
deriving Repr

/-- `parseModelString` from `types.ts`. -/
def parseModelString (s : String) : String × String :=
  match findSubFrom s.data ['/'] 0 with
  | none => ("azure", s)
  | some slash => (String.mk (sliceChars s.data 0 slash),
      String.mk (s.data.drop (slash + 1)))

/-- `resolveProvider` from `types.ts`. -/
def resolveProvider (provider : String) : String :=
  if provider = "azure" then "azure-openai-responses"
  else if provider = "openai" then "openai-responses"
  else if provider = "anthropic" then "anthropic"
  else if provider = "google" then "google"
  else provider

/-- `InputRequest` from `types.ts` (prompt / select / confirm requests). -/
inductive InputRequest where
  | prompt (name message : String) (default : Option String) (inputType : String)
  | select (name message : String) (options : List (String × String))
  | confirm (name message : String) (default : Bool)

-- ─── Schema helpers (`executor.ts`, bottom of file) ────────────────────────

/-- JS truthiness of an optional string (`undefined` and `""` are falsy). -/
def strTruthy : Option String → Bool
  | some s => s ≠ ""
  | none => false

mutual

/-- `buildJsonSchemaFromFields` from the executor: convert `FieldDef[]` to a
JSON-schema `Value` with `properties` and `required`.  Fuelled on the field
nesting depth (the executor passes its own always-sufficient fuel); fuel
exhaustion is unreachable for real field trees. -/
def buildJsonSchemaFromFields : Nat → List FieldDef → Value
  | 0, _ => .undef
  | fuel + 1, fields =>
    let pr := schemaPropsGo fuel fields [] []
    .obj [("type", .str "object"), ("properties", .obj pr.1),
          ("required", .arr pr.2)]

def schemaPropsGo : Nat → List FieldDef → Rec → List Value → Rec × List Value
  | 0, _, props, req => (props, req)
  | fuel + 1, fields, props, req =>
    match fields with
    | [] => (props, req)
    | f :: rest =>
      if strTruthy f.name then
        let n := f.name.getD ""
        schemaPropsGo fuel rest (recSet props n (fieldDefToJsonSchema fuel f))
          (req ++ [.str n])
      else
        schemaPropsGo fuel rest props req

/-- `fieldDefToJsonSchema` from the executor. -/
def fieldDefToJsonSchema : Nat → FieldDef → Value
  | 0, _ => .undef
  | fuel + 1, .mk _ ty desc children =>
    let descV : Value := match desc with | some d => .str d | none => .undef
    if ty = "text" then .obj [("type", .str "string"), ("description", descV)]
    else if ty = "number" then .obj [("type", .str "number"), ("description", descV)]
    else if ty = "boolean" then .obj [("type", .str "boolean"), ("description", descV)]
    else if ty = "list" then
      let itemSchema :=
        match children with
        | some (c₀ :: cs) =>
          if strTruthy c₀.name then buildJsonSchemaFromFields fuel (c₀ :: cs)
          else fieldDefToJsonSchema fuel c₀
        | _ => Value.obj [("type", .str "string")]
      .obj [("type", .str "array"), ("items", itemSchema), ("description", descV)]
    else if ty = "object" then
      match children with
      | some (c₀ :: cs) => buildJsonSchemaFromFields fuel (c₀ :: cs)
      | _ => .obj [("type", .str "object"), ("description", descV)]
    else .obj [("type", .str "string")]

end

mutual

/-- `describeFieldsForPrompt` from the executor: natural-language schema
description (one `-` bullet per field, nested fields indented).  Fuelled on
nesting depth like the schema builder. -/
def describeFieldsForPrompt : Nat → List FieldDef → Nat → String
  | 0, _, _ => ""
  | fuel + 1, fields, indent => joinSep "\n" (describeFieldLines fuel fields indent)

def describeFieldLines : Nat → List FieldDef → Nat → List String
  | 0, _, _ => []
  | fuel + 1, fields, indent =>
    match fields with
    | [] => []
    | .mk name ty desc children :: rest =>
      let pad := jsonPad indent
      let name₁ := name.getD "(element)"
      let desc₁ :=
        match desc with
        | some d => if d = "" then "" else " — " ++ d
        | none => ""
      match children with
      | some cs =>
        if ty = "list" then
          (pad ++ "- \"" ++ name₁ ++ "\": array of:") ::
            describeFieldsForPrompt fuel cs (indent + 1) ::
            describeFieldLines fuel rest indent
        else if ty = "object" then
          (pad ++ "- \"" ++ name₁ ++ "\": object with:") ::
            describeFieldsForPrompt fuel cs (indent + 1) ::
            describeFieldLines fuel rest indent
        else
          (pad ++ "- \"" ++ name₁ ++ "\": " ++ ty ++ desc₁) ::
            describeFieldLines fuel rest indent
      | none =>
        (pad ++ "- \"" ++ name₁ ++ "\": " ++ ty ++ desc₁) ::
          describeFieldLines fuel rest indent

end

end Amps

namespace Amps

-- ─── Executor (`WorkflowExecutor`) ─────────────────────────────────────────

/-- The executor's external collaborators, as construction options plus
modelled capability boundaries:

* `stream piProvider model prompt` — the pi-ai streaming boundary
  (`getModel` + `stream`): the concatenation of all `text_delta` events for
  the given prompt (the executor sends one user message whose content is
  the prompt).  Modelled as a total function: LLM-failure propagation is not
  under study.
* `inputResolver` — the optional human-input resolver callback.
* `flowRun src inputs` — modelled from the spec: `handleFlow`'s
  parse-and-execute of the sub-flow file at `src` with the given resolved
  inputs by a fresh, isolated executor (filesystem plus recursive
  construction, outside the shallow embedding); returns the sub-flow's
  output mapping or a thrown error.
* `now` — `new Date().toISOString()`.
* `defaultModel` — `DEFAULT_MODEL` (environment/config dependent). -/
structure Env where
  stream : String → String → String → String
  inputResolver : Option (InputRequest → Value)
  flowRun : String → Rec → Except String Rec
  now : String
  defaultModel : String
  modelOverride : Option String

/-- Executor state: the `WorkflowContext` plus the log of LLM calls made at
the `callLLM` boundary, recorded as (model string, prompt) pairs in call
order.  The log makes the external interaction observable; it is written
only by `callLLM`. -/
structure ExecSt where
  ctx : WorkflowContext
  llmCalls : List (String × String)
deriving Repr

/-- `buildScope`: `{...inputs, ...outputs}`. -/
def buildScope (ctx : WorkflowContext) : Rec :=
  recMerge ctx.inputs ctx.outputs

/-- `callLLM`: parse the model string, resolve the provider, stream the
prompt as a single user message and concatenate the text deltas. -/
def callLLM (env : Env) (modelString prompt : String) (st : ExecSt) :
    String × ExecSt :=
  let pm := parseModelString modelString
  let piProvider := resolveProvider pm.1
  let fullResponse := env.stream piProvider pm.2 prompt
  (fullResponse, { st with llmCalls := st.llmCalls ++ [(modelString, prompt)] })

/-- `handleProse`: interpolate, push onto the context stack. -/
def handleProse (_env : Env) (content : String) (st : ExecSt) : Except String ExecSt :=
  let scope := buildScope st.ctx
  let interpolated := interpolateString content scope
  .ok { st with ctx :=
    { st.ctx with contextStack := st.ctx.contextStack ++ [interpolated] } }

/-- The prompt `handleGeneration` sends: the blank-line join of the context
stack. -/
def generationPrompt (st : ExecSt) : String :=
  joinSep "\n\n" st.ctx.contextStack

/-- Model-string precedence: run-level override, then the node `model`
prop, then the process default. -/
def pickModel (env : Env) (model : Option String) : String :=
  env.modelOverride.getD (model.getD env.defaultModel)

/-- `handleGeneration`: join context, call the LLM, record the response as
a named output and push it onto the context stack. -/
def handleGeneration (env : Env) (name : String) (model : Option String)
    (st : ExecSt) : Except String ExecSt :=
  let modelString := pickModel env model
  let prompt := generationPrompt st
  let r := callLLM env modelString prompt st
  let fullResponse := r.1
  let st₁ := r.2
  .ok { st₁ with ctx :=
    { st₁.ctx with
      outputs := recSet st₁.ctx.outputs name (.str fullResponse),
      contextStack := st₁.ctx.contextStack ++ [fullResponse] } }

/-- The prompt `handleStructured` sends: joined context plus the schema
instruction block. -/
def structuredPrompt (fuel : Nat) (fields : List FieldDef) (st : ExecSt) : String :=
  joinSep "\n\n" st.ctx.contextStack ++
    "\n\n" ++
    "Respond with ONLY valid JSON matching this schema:\n" ++
    describeFieldsForPrompt fuel fields 0 ++
    "\n\nJSON Schema:\n```json\n" ++
    jsonStringify2 (buildJsonSchemaFromFields fuel fields) ++
    "\n```\n\n" ++
    "Output ONLY the JSON object, no markdown fences, no explanation."

/-- The leading-fence strip `rawResponse.replace(/^```(?:json)?\s*\n?/i, "")`:
drop the fence, an optional case-insensitive `json`, and (since the greedy
`\s*` subsumes the optional newline) all following whitespace. -/
def stripLeadingFence (s : String) : String :=
  let cs := s.data
  if listStartsWith cs 0 [btick, btick, btick] then
    let rest := cs.drop 3
    let rest₁ :=
      if lowerChars (rest.take 4) = "json".data then rest.drop 4 else rest
    String.mk (rest₁.dropWhile Char.isWhitespace)
  else s

/-- The trailing-fence strip `.replace(/\n?```\s*$/, "")`: a whitespace-only
suffix preceded by a fence, preceded by an optional newline. -/
def stripTrailingFence (s : String) : String :=
  let rcs := s.data.reverse
  let rest := rcs.dropWhile Char.isWhitespace
  if listStartsWith rest 0 [btick, btick, btick] then
    let rest₁ := rest.drop 3
    let rest₂ := match rest₁ with
      | '\n' :: r => r
      | r => r
    String.mk rest₂.reverse
  else s

/-- `cleaned` in `handleStructured`: strip fences, then trim. -/
def cleanResponse (raw : String) : String :=
  jsTrim (stripTrailingFence (stripLeadingFence raw))

/-- JS `s.lastIndexOf(c)`. -/
def findLastIdx (cs : List Char) (c : Char) : Option Nat :=
  (findSubFrom cs.reverse [c] 0).map (fun j => cs.length - 1 - j)

/-- `rawResponse.match(/\{[\s\S]*\}/)`: the greedy brace-substring
heuristic — from the first opening brace to the last closing brace, when
the latter comes after the former. -/
def braceSubstring (raw : String) : Option String :=
  let cs := raw.data
  match findSubFrom cs [obrace] 0, findLastIdx cs cbrace with
  | some f, some l => if f < l then some (String.mk (sliceChars cs f (l + 1))) else none
  | _, _ => none

/-- The response-parsing pipeline of `handleStructured`: fence-stripped
`JSON.parse`, then the brace-substring heuristic, then the sentinel object
carrying the raw text and an error marker. -/
def parseStructuredResponse (rawResponse : String) : Value :=
  match jsonParse (cleanResponse rawResponse) with
  | some v => v
  | none =>
    match braceSubstring rawResponse with
    | some sub =>
      match jsonParse sub with
      | some v => v
      | none => .obj [("_raw", .str rawResponse),
                      ("_error", .str "Failed to parse JSON")]
    | none => .obj [("_raw", .str rawResponse),
                    ("_error", .str "No JSON found in response")]

/-- `handleStructured`: prompt with schema instructions, parse the response
(soft-failing to the sentinel), record the parsed value and push its
pretty-printed JSON. -/
def handleStructured (env : Env) (fuel : Nat) (name : String)
    (model : Option String) (fields : List FieldDef) (st : ExecSt) :
    Except String ExecSt :=
  let modelString := pickModel env model
  let prompt := structuredPrompt fuel fields st
  let r := callLLM env modelString prompt st
  let rawResponse := r.1
  let st₁ := r.2
  let parsed := parseStructuredResponse rawResponse
  .ok { st₁ with ctx :=
    { st₁.ctx with
      outputs := recSet st₁.ctx.outputs name parsed,
      contextStack := st₁.ctx.contextStack ++ [jsonStringify2 parsed] } }

/-- `handleWebSearch` (placeholder search): resolve the query, record the
placeholder result object, push the formatted placeholder. -/
def handleWebSearch (_env : Env) (name : String) (query : Expression)
    (st : ExecSt) : Except String ExecSt :=
  let scope := buildScope st.ctx
  let q := resolveExpression query scope
  let results : Value := .obj [("query", .str (jsToString q)), ("results", .arr [])]
  let formatted := "[Search results for \"" ++ jsToString q ++
    "\"]\n\n(No results — web search not yet integrated)"
  .ok { st with ctx :=
    { st.ctx with
      outputs := recSet st.ctx.outputs name results,
      contextStack := st.ctx.contextStack ++ [formatted] } }

/-- `handleWebFetch` (placeholder fetch). -/
def handleWebFetch (env : Env) (name : String) (url : Expression)
    (st : ExecSt) : Except String ExecSt :=
  let scope := buildScope st.ctx
  let u := resolveExpression url scope
  let content := "(Content from " ++ jsToString u ++ " — web fetch not yet integrated)"
  let result : Value := .obj [("url", .str (jsToString u)), ("title", .str ""),
    ("content", .str content), ("fetchedAt", .str env.now)]
  .ok { st with ctx :=
    { st.ctx with
      outputs := recSet st.ctx.outputs name result,
      contextStack := st.ctx.contextStack ++
        ["[Fetched content from " ++ jsToString u ++ "]\n\n" ++ content] } }

/-- `handleSet`: resolve the value, record it as a named output only. -/
def handleSet (_env : Env) (name : String) (value : Expression) (st : ExecSt) :
    Except String ExecSt :=
  let scope := buildScope st.ctx
  let v := resolveExpression value scope
  .ok { st with ctx := { st.ctx with outputs := recSet st.ctx.outputs name v } }

/-- `handleLog`: interpolates its content for the side-channel only; no
context or output effect. -/
def handleLog (_env : Env) (content : String) (st : ExecSt) : Except String ExecSt :=
  let scope := buildScope st.ctx
  let _message := interpolateString content scope
  .ok st

/-- `handleFlow`: resolve the `inputs` prop against the current scope, run
the sub-flow in isolation (via `Env.flowRun`), record its outputs and push
a JSON summary. -/
def handleFlow (env : Env) (name src : String)
    (inputs : Option (List (String × Expression))) (st : ExecSt) :
    Except String ExecSt :=
  let subflowInputs : Rec :=
    match inputs with
    | some l =>
      let scope := buildScope st.ctx
      l.foldl (fun acc kv => recSet acc kv.1 (resolveExpression kv.2 scope)) []
    | none => []
  match env.flowRun src subflowInputs with
  | .error e => .error e
  | .ok subflowOutputs =>
    let summary := "[Subflow \"" ++ name ++ "\" results]\n" ++
      jsonStringify2 (.obj subflowOutputs)
    .ok { st with ctx :=
      { st.ctx with
        outputs := recSet st.ctx.outputs name (.obj subflowOutputs),
        contextStack := st.ctx.contextStack ++ [summary] } }

/-- `handlePrompt`: with no resolver, fall back to the declared default
(throwing when there is none); with a resolver, suspend on it. -/
def handlePrompt (env : Env) (name : String) (message : Expression)
    (default : Option Expression) (inputType : Option String) (st : ExecSt) :
    Except String ExecSt :=
  let scope := buildScope st.ctx
  let _message₁ := jsToString (resolveExpression message scope)
  let defaultValue : Option String :=
    match default with
    | some d => some (jsToString (resolveExpression d scope))
    | none => none
  let inputType₁ := inputType.getD "text"
  match env.inputResolver with
  | none =>
    match defaultValue with
    | some dv =>
      let value := if inputType₁ = "number" then jsToNumberV (.str dv) else .str dv
      .ok { st with ctx :=
        { st.ctx with
          outputs := recSet st.ctx.outputs name value,
          contextStack := st.ctx.contextStack ++
            ["[User input \"" ++ name ++ "\": " ++ jsToString value ++ "]"] } }
    | none =>
      .error ("Input \"" ++ name ++
        "\" requires a value but no inputResolver is available and no default was specified")
  | some resolver =>
    let rawValue := resolver (.prompt name _message₁ defaultValue inputType₁)
    let value :=
      if inputType₁ = "number" then jsToNumberV rawValue
      else .str (jsToString rawValue)
    .ok { st with ctx :=
      { st.ctx with
        outputs := recSet st.ctx.outputs name value,
        contextStack := st.ctx.contextStack ++
          ["[User input \"" ++ name ++ "\": " ++ jsToString value ++ "]"] } }

/-- JS property read `opt[key]` as it occurs in `handleSelect`
normalisation: throws on `undefined`/`null`, reads object/array/string
properties, and is `undefined` on other primitives. -/
def jsGetPropE : Value → String → Except String Value
  | .undef, _ => .error "TypeError: cannot read properties of undefined"
  | .null, _ => .error "TypeError: cannot read properties of null"
  | .obj fields, k => .ok (recGet fields k)
  | .arr xs, k => if k = "length" then .ok (.num xs.length) else .ok .undef
  | .str s, k => if k = "length" then .ok (.num s.length) else .ok .undef
  | _, _ => .ok Value.undef

/-- Option normalisation in `handleSelect`: plain strings become
`{value, label}` pairs; objects are keyed by the configured
`valueKey`/`labelKey` (defaulting to compact JSON / the value). -/
def normalizeOption (labelKey valueKey : Option String) (opt : Value) :
    Except String (String × String) :=
  match opt with
  | .str s => .ok (s, s)
  | _ =>
    match valueKey with
    | some vk =>
      match jsGetPropE opt vk with
      | .error e => .error e
      | .ok v =>
        let value := jsToString v
        match labelKey with
        | some lk =>
          match jsGetPropE opt lk with
          | .error e => .error e
          | .ok l => .ok (value, jsToString l)
        | none => .ok (value, value)
    | none =>
      let value := jsonStringifyC opt
      match labelKey with
      | some lk =>
        match jsGetPropE opt lk with
        | .error e => .error e
        | .ok l => .ok (value, jsToString l)
      | none => .ok (value, value)

def normalizeOptions (labelKey valueKey : Option String) :
    List Value → Except String (List (String × String))
  | [] => .ok []
  | opt :: rest =>
    match normalizeOption labelKey valueKey opt with
    | .error e => .error e
    | .ok p =>
      match normalizeOptions labelKey valueKey rest with
      | .error e => .error e
      | .ok ps => .ok (p :: ps)

/-- Option normalisation on the resolved options value: arrays are
normalised element-wise; any non-array yields the empty option list. -/
def normalizeRawOptions (labelKey valueKey : Option String) (rawOptions : Value) :
    Except String (List (String × String)) :=
  match rawOptions with
  | .arr opts => normalizeOptions labelKey valueKey opts
  | _ => .ok []

/-- `handleSelect`: normalise the options; with no resolver, fall back to
the first option's value (or the empty string); with a resolver, suspend. -/
def handleSelect (env : Env) (name : String) (message options : Expression)
    (labelKey valueKey : Option String) (st : ExecSt) : Except String ExecSt :=
  let scope := buildScope st.ctx
  let message₁ := jsToString (resolveExpression message scope)
  let rawOptions := resolveExpression options scope
  match normalizeRawOptions labelKey valueKey rawOptions with
  | .error e => .error e
  | .ok options₁ =>
    match env.inputResolver with
    | none =>
      let value : String :=
        match options₁ with
        | p :: _ => p.1
        | [] => ""
      .ok { st with ctx :=
        { st.ctx with
          outputs := recSet st.ctx.outputs name (.str value),
          contextStack := st.ctx.contextStack ++
            ["[User selected \"" ++ name ++ "\": " ++ value ++ "]"] } }
    | some resolver =>
      let value := resolver (.select name message₁ options₁)
      let shown :=
        match value with
        | .str s => s
        | v => jsonStringifyC v
      .ok { st with ctx :=
        { st.ctx with
          outputs := recSet st.ctx.outputs name value,
          contextStack := st.ctx.contextStack ++
            ["[User selected \"" ++ name ++ "\": " ++ shown ++ "]"] } }

/-- `handleConfirm`: with no resolver, the declared default (coerced to
boolean) or `true`; with a resolver, the resolved value coerced to
boolean. -/
def handleConfirm (env : Env) (name : String) (message : Expression)
    (default : Option Expression) (st : ExecSt) : Except String ExecSt :=
  let scope := buildScope st.ctx
  let message₁ := jsToString (resolveExpression message scope)
  let defaultValue : Bool :=
    match default with
    | some d => toBool (resolveExpression d scope)
    | none => true
  match env.inputResolver with
  | none =>
    .ok { st with ctx :=
      { st.ctx with
        outputs := recSet st.ctx.outputs name (.bool defaultValue),
        contextStack := st.ctx.contextStack ++
          ["[User confirmed \"" ++ name ++ "\": " ++
            (if defaultValue then "true" else "false") ++ "]"] } }
  | some resolver =>
    let value := toBool (resolver (.confirm name message₁ defaultValue))
    .ok { st with ctx :=
      { st.ctx with
        outputs := recSet st.ctx.outputs name (.bool value),
        contextStack := st.ctx.contextStack ++
          ["[User confirmed \"" ++ name ++ "\": " ++
            (if value then "true" else "false") ++ "]"] } }

/-- The iteration-output collection in `handleLoop`: every entry of the
current outputs whose key is not `item`/`index` and is either new or
changed relative to the iteration-start snapshot.  (Structural equality
models `===`; the claims under study only compare primitives.) -/
def collectIterationOutputs (current outer : Rec) : Rec :=
  current.foldl (fun acc kv =>
    if kv.1 ≠ "item" ∧ kv.1 ≠ "index" ∧
        ¬(recHas outer kv.1 ∧ recFind outer kv.1 == some kv.2) then
      recSet acc kv.1 kv.2
    else acc) []

/-- The loop-subject resolution in `handleLoop`: an `over` expression that
does not resolve to an array yields the empty item list; otherwise a
`count` expression is coerced with `Number(...) || 0`. -/
def loopItems (over : Option Expression) (scope : Rec) : Option (List Value) :=
  match over with
  | some e =>
    match resolveExpression e scope with
    | .arr l => some l
    | _ => some []
  | none => none

/-- `count` in `handleLoop` (only consulted when `over` is absent). -/
def loopCount (over count : Option Expression) (scope : Rec) : Option Value :=
  match over with
  | some _ => none
  | none =>
    match count with
    | some e =>
      match resolveExpression e scope with
      | .num n => some (.num n)
      | .nan => some .nan
      | v =>
        match jsToNumberV v with
        | .num n => some (.num n)
        | _ => some (.num 0)
    | none => none

/-- `total` in `handleLoop`: array length, or the count (`?? 0`); the
`for (let i = 0; i < total; i++)` loop runs `max total 0` times (none for
`NaN`). -/
def loopTotal (items : Option (List Value)) (count : Option Value) : Nat :=
  match items with
  | some l => l.length
  | none =>
    match count with
    | some (.num n) => n.toNat
    | some _ => 0
    | none => 0

end Amps

namespace Amps

/-- `currentItem` in the loop body: `items ? items[i] : i`. -/
def currentItemOf (items : Option (List Value)) (i : Nat) : Value :=
  match items with
  | some l => (l.get? i).getD .undef
  | none => .num i

/-- The outputs record a loop iteration starts with:
`{ ...outerOutputs, item: currentItem, index: i }`. -/
def iterationStartOutputs (outer : Rec) (items : Option (List Value)) (i : Nat) : Rec :=
  recSet (recSet outer "item" (currentItemOf items i)) "index" (.num i)

mutual

/-- `executeNode`: dispatch on the node kind (comments are skipped).
The executor family is fuelled: every recursive call decrements the fuel,
so concrete runs reduce in the kernel; the top-level caller supplies fuel
exceeding the (finite) number of dispatch steps, making the
`"out of fuel"` branch unreachable in any real run.  Theorems about
execution are stated for every fuel, conditioned on an `.ok` result. -/
def executeNode (env : Env) : Nat → WorkflowNode → ExecSt → Except String ExecSt
  | 0, _, _ => .error "out of fuel"
  | fuel + 1, node, st =>
    match node with
    | .prose content => handleProse env content st
    | .generation name model _ _ _ => handleGeneration env name model st
    | .structured name model fields => handleStructured env fuel name model fields st
    | .websearch name query _ _ => handleWebSearch env name query st
    | .webfetch name url _ _ => handleWebFetch env name url st
    | .loop name over count children => handleLoop env fuel name over count children st
    | .ifNode condition children elseChildren =>
      -- handleIf, inlined: truthiness-coerced condition, then exactly one
      -- branch (or nothing)
      if evaluateCondition condition.raw (buildScope st.ctx) then
        executeNodes env fuel children st
      else
        match elseChildren with
        | some ec => executeNodes env fuel ec st
        | none => .ok st
    | .set name value => handleSet env name value st
    | .log _ content => handleLog env content st
    | .comment => .ok st
    | .flow name src inputs => handleFlow env name src inputs st
    | .prompt name message default inputType =>
      handlePrompt env name message default inputType st
    | .select name message options labelKey valueKey =>
      handleSelect env name message options labelKey valueKey st
    | .confirm name message default => handleConfirm env name message default st

/-- `executeNodes`: strictly sequential execution; a thrown error aborts. -/
def executeNodes (env : Env) : Nat → List WorkflowNode → ExecSt → Except String ExecSt
  | 0, _, _ => .error "out of fuel"
  | fuel + 1, nodes, st =>
    match nodes with
    | [] => .ok st
    | n :: rest =>
      match executeNode env fuel n st with
      | .error e => .error e
      | .ok st₁ => executeNodes env fuel rest st₁

/-- `handleLoop`: resolve the subject, snapshot the pre-loop context stack,
run the iterations, then restore the pre-loop stack, record the per-
iteration results as the named output and push the summary entry. -/
def handleLoop (env : Env) : Nat → String → Option Expression →
    Option Expression → List WorkflowNode → ExecSt → Except String ExecSt
  | 0, _, _, _, _, _ => .error "out of fuel"
  | fuel + 1, name, over, count, children, st =>
    let scope := buildScope st.ctx
    let items := loopItems over scope
    let count₁ := loopCount over count scope
    let total := loopTotal items count₁
    let preLoopContextStack := st.ctx.contextStack
    match execLoopIters env fuel children items preLoopContextStack 0 total st with
    | .error e => .error e
    | .ok (st₁, iterationResults) =>
      let summary := "[Loop \"" ++ name ++ "\" completed: " ++ toString total ++
        " iterations]\n" ++ jsonStringify2 (.arr iterationResults)
      .ok { st₁ with ctx :=
        { st₁.ctx with
          outputs := recSet st₁.ctx.outputs name (.arr iterationResults),
          contextStack := preLoopContextStack ++ [summary] } }

/-- One loop iteration (the body of `for (let i = 0; i < total; i++)`):
reset the stack to the pre-loop snapshot, inject `item`/`index` over a
snapshot of the outputs, run the children, collect the iteration record and
restore the outputs snapshot. -/
def runIteration (env : Env) : Nat → List WorkflowNode → Option (List Value) →
    List String → Nat → ExecSt → Except String (ExecSt × Value)
  | 0, _, _, _, _, _ => .error "out of fuel"
  | fuel + 1, children, items, preLoop, i, st =>
    let currentItem : Value := currentItemOf items i
    let outerOutputs := st.ctx.outputs
    let iterSt := { st with ctx :=
      { st.ctx with
        contextStack := preLoop,
        outputs := iterationStartOutputs outerOutputs items i } }
    match executeNodes env fuel children iterSt with
    | .error e => .error e
    | .ok st₂ =>
      let iterationOutputs := collectIterationOutputs st₂.ctx.outputs outerOutputs
      let record : Value :=
        .obj (recMerge [("item", currentItem), ("index", .num i)] iterationOutputs)
      .ok ({ st₂ with ctx := { st₂.ctx with outputs := outerOutputs } }, record)

/-- The iteration loop of `handleLoop`, by remaining-iteration countdown. -/
def execLoopIters (env : Env) : Nat → List WorkflowNode → Option (List Value) →
    List String → Nat → Nat → ExecSt → Except String (ExecSt × List Value)
  | 0, _, _, _, _, _, _ => .error "out of fuel"
  | fuel + 1, children, items, preLoop, i, remaining, st =>
    match remaining with
    | 0 => .ok (st, [])
    | r + 1 =>
      match runIteration env fuel children items preLoop i st with
      | .error e => .error e
      | .ok (st₁, record) =>
        match execLoopIters env fuel children items preLoop (i + 1) r st₁ with
        | .error e => .error e
        | .ok (st₂, records) => .ok (st₂, record :: records)

end

/-- `WorkflowExecutor.execute`: apply declared input defaults, run the node
sequence, and assemble the final result (allow-list filtered when a
non-empty `outputs` list was declared).  Returns the result together with
the final executor state. -/
def executeWorkflow (env : Env) (fuel : Nat) (workflow : WorkflowDefinition)
    (initialInputs : Rec) : Except String (Rec × ExecSt) :=
  let inputs₁ := workflow.inputs.foldl (fun acc d =>
    match recFind acc d.name with
    | some .undef | none =>
      match d.default with
      | .undef => acc
      | dv => recSet acc d.name dv
    | some _ => acc) initialInputs
  let st₀ : ExecSt :=
    { ctx := { inputs := inputs₁, outputs := [], contextStack := [] },
      llmCalls := [] }
  match executeNodes env fuel workflow.nodes st₀ with
  | .error e => .error e
  | .ok st =>
    let allOutputs := recMerge st.ctx.inputs st.ctx.outputs
    let result : Rec :=
      match workflow.outputs with
      | some keys =>
        if keys.length > 0 then
          keys.foldl (fun acc key =>
            if recHas allOutputs key then recSet acc key (recGet allOutputs key)
            else acc) []
        else allOutputs
      | none => allOutputs
    .ok (result, st)

end Amps

namespace Amps

-- ─── Association-list lemmas ───────────────────────────────────────────────

@[simp]
theorem recFind_nil (k : String) : recFind [] k = none := rfl

theorem recFind_recSet_self (r : Rec) (k : String) (v : Value) :
    recFind (recSet r k v) k = some v := by
  induction r with
  | nil => simp [recSet, recFind]
  | cons kv rest ih =>
    obtain ⟨k₁, v₁⟩ := kv
    by_cases h : k₁ = k
    · simp [recSet, recFind, h]
    · simp [recSet, recFind, h, ih]

theorem recFind_recSet_ne (r : Rec) (k k₁ : String) (v : Value) (h : k₁ ≠ k) :
    recFind (recSet r k₁ v) k = recFind r k := by
  induction r with
  | nil => simp [recSet, recFind, h]
  | cons kv rest ih =>
    obtain ⟨k₂, v₂⟩ := kv
    by_cases h₂ : k₂ = k₁
    · simp [recSet, recFind, h₂, h]
    · simp only [recSet, if_neg h₂]
      by_cases h₃ : k₂ = k
      · simp [recFind, h₃]
      · simp [recFind, h₃, ih]

theorem recHas_recSet_ne (r : Rec) (k k₁ : String) (v : Value) (h : k₁ ≠ k) :
    recHas (recSet r k₁ v) k = recHas r k := by
  simp [recHas, recFind_recSet_ne r k k₁ v h]

-- ─── C6: fail-soft expression evaluation ───────────────────────────────────

/-- **C6** — Fail-soft evaluation: `evaluateExpression` is a total function
of the expression string and scope (the shallow-embedding rendering of
"never throws"), and whenever the underlying host-language evaluation of the
trimmed expression fails — syntax error, reference error, type error — the
result is `undefined` rather than a propagated exception. -/
theorem C6_fail_soft_evaluation (expr : String) (scope : Rec) (err : String)
    (h : jsEvalE (jsTrim expr) scope = .error err) :
    evaluateExpression expr scope = .undef := by
  unfold evaluateExpression
  by_cases he : jsTrim expr = ""
  · simp [he]
  · simp [he, h]

/-- Witness for C6 at the spec's own example: `evaluate("undefinedVar.prop", {})`
is `undefined` (the host evaluation raises a reference error). -/
theorem C6_fail_soft_evaluation_witness :
    evaluateExpression "undefinedVar.prop" [] = .undef :=
  C6_fail_soft_evaluation "undefinedVar.prop" []
    "ReferenceError: undefinedVar is not defined" (by rfl)

end Amps

namespace Amps

-- ─── Shared concrete fixtures for witnesses and counterexamples ────────────

/-- A headless environment: no input resolver, constant LLM. -/
def sampleEnv : Env :=
  { stream := fun _ _ _ => "resp",
    inputResolver := none,
    flowRun := fun _ _ => .ok [],
    now := "2026-01-01T00:00:00.000Z",
    defaultModel := "azure/gpt-5.2",
    modelOverride := none }

/-- An environment whose LLM echoes the prompt (makes prompts observable in
outputs as well as in the call log). -/
def echoEnv : Env := { sampleEnv with stream := fun _ _ prompt => prompt }

/-- A starting state with one list-valued input and nothing else. -/
def sampleSt : ExecSt :=
  { ctx := { inputs := [("items", .arr [.num 10, .num 20])],
             outputs := [], contextStack := [] },
    llmCalls := [] }

-- ─── C2: loop stack frame ──────────────────────────────────────────────────

/-- **C2** — Loop stack frame: whenever a Loop node's execution completes
(`.ok`), the resulting context stack is exactly the pre-loop context stack
plus one appended summary entry — for any iteration count (including zero)
and regardless of what the loop's children pushed: `handleLoop` restores
the pre-loop snapshot and pushes the single summary unconditionally. -/
theorem C2_loop_frame (env : Env) (fuel : Nat) (name : String)
    (over count : Option Expression) (children : List WorkflowNode)
    (st st' : ExecSt)
    (h : executeNode env fuel (.loop name over count children) st = .ok st') :
    ∃ summary, st'.ctx.contextStack = st.ctx.contextStack ++ [summary] := by
  cases fuel with
  | zero => simp [executeNode] at h
  | succ f =>
    simp only [executeNode] at h
    cases f with
    | zero => simp [handleLoop] at h
    | succ f₂ =>
      simp only [handleLoop] at h
      split at h
      · exact absurd h (by simp)
      · cases h
        exact ⟨_, rfl⟩

/-- Witness for C2: a two-iteration loop whose children push prose and a
generation response; afterwards the stack is the initial stack plus one
entry. -/
theorem C2_loop_frame_witness :
    ∃ st', executeNode echoEnv 9
        (.loop "l" (some ⟨"items", false⟩) none
          [.prose "it\x7bindex\x7d", .generation "g" none none none none])
        sampleSt = .ok st' ∧
      ∃ summary, st'.ctx.contextStack = sampleSt.ctx.contextStack ++ [summary] := by
  have hst : ∃ st', executeNode echoEnv 9
      (.loop "l" (some ⟨"items", false⟩) none
        [.prose "it\x7bindex\x7d", .generation "g" none none none none])
      sampleSt = .ok st' := ⟨_, rfl⟩
  obtain ⟨st', h⟩ := hst
  exact ⟨st', h, C2_loop_frame echoEnv 9 "l" _ _ _ sampleSt st' h⟩

-- ─── C10: non-array loop subject ───────────────────────────────────────────

/-- `Array.isArray(v)`. -/
def Value.isArray : Value → Bool
  | .arr _ => true
  | _ => false

/-- **C10** — Non-array loop subject: when a Loop node's `over` expression
resolves to anything that is not an array (including `undefined`), the loop
completes without throwing, performs zero iterations (no LLM calls, no
child effects), records the empty array as its named output, and pushes
exactly one summary entry. -/
theorem C10_non_array_loop (env : Env) (fuel : Nat) (name : String)
    (e : Expression) (count : Option Expression) (children : List WorkflowNode)
    (st : ExecSt)
    (hover : (resolveExpression e (buildScope st.ctx)).isArray = false) :
    ∃ st', executeNode env (fuel + 3) (.loop name (some e) count children) st = .ok st' ∧
      recGet st'.ctx.outputs name = .arr [] ∧
      st'.ctx.contextStack = st.ctx.contextStack ++
        ["[Loop \"" ++ name ++ "\" completed: 0 iterations]\n[]"] ∧
      st'.ctx.inputs = st.ctx.inputs ∧
      st'.llmCalls = st.llmCalls ∧
      ∀ k, k ≠ name → recFind st'.ctx.outputs k = recFind st.ctx.outputs k := by
  have hitems : loopItems (some e) (buildScope st.ctx) = some [] := by
    unfold loopItems
    cases hv : resolveExpression e (buildScope st.ctx)
    all_goals first
      | (simp [hv]; done)
      | (rw [hv] at hover; simp [Value.isArray] at hover)
  refine ⟨{ st with ctx := { st.ctx with
      outputs := recSet st.ctx.outputs name (.arr []),
      contextStack := st.ctx.contextStack ++
        ["[Loop \"" ++ name ++ "\" completed: 0 iterations]\n[]"] } },
    ?_, ?_, ?_, ?_, ?_, ?_⟩
  · simp only [executeNode, handleLoop, hitems, loopTotal, execLoopIters,
      List.length_nil, String.append_assoc]
    rfl
  · simp [recGet, recFind_recSet_self]
  · rfl
  · rfl
  · rfl
  · intro k hk
    exact recFind_recSet_ne _ _ _ _ (fun hh => hk hh.symm)

/-- Witness for C10: `over={missing}` resolves to `undefined`; the loop
completes with output `[]` and one summary entry. -/
theorem C10_non_array_loop_witness :
    ∃ st', executeNode sampleEnv 3
        (.loop "l" (some ⟨"missing", false⟩) none [.prose "x"]) sampleSt = .ok st' ∧
      recGet st'.ctx.outputs "l" = .arr [] ∧
      st'.ctx.contextStack = sampleSt.ctx.contextStack ++
        ["[Loop \"l\" completed: 0 iterations]\n[]"] ∧
      sampleSt.ctx.inputs = sampleSt.ctx.inputs ∧
      st'.llmCalls = sampleSt.llmCalls ∧
      ∀ k, k ≠ "l" → recFind st'.ctx.outputs k = recFind sampleSt.ctx.outputs k := by
  obtain ⟨st', h₁, h₂, h₃, h₄, h₅, h₆⟩ :=
    C10_non_array_loop sampleEnv 0 "l" ⟨"missing", false⟩ none [.prose "x"]
      sampleSt (by rfl)
  exact ⟨st', h₁, h₂, h₃, rfl, h₅, h₆⟩

end Amps

namespace Amps

-- ─── C4: headless human-input fallback (corrected) ─────────────────────────

/-- **C4 counterexample** — the claim asserts that with no input resolver a
Confirm node without a declared default raises a fatal error aborting the
run.  In the code, `handleConfirm` defaults the missing `default` prop to
`true` and completes normally: executing such a node headlessly yields
`.ok` with output `true`, never an error. -/
theorem C4_counterexample :
    ∃ st', executeNode sampleEnv 1
        (.confirm "ok" ⟨"Proceed?", true⟩ none) sampleSt = .ok st' ∧
      recGet st'.ctx.outputs "ok" = .bool true ∧
      sampleEnv.inputResolver = none := by
  exact ⟨_, rfl, rfl, rfl⟩

/-- **C4 amended** — Headless human-input fallback, per node kind: with no
input resolver configured,

* a Prompt node with no declared default raises the fatal
  missing-input error, and one with a default completes with the default
  (number-coerced when the node is number-typed);
* a Select node never consults a declared default and never raises the
  missing-input error: it completes with the first normalised option's
  value, or the empty string when there are none;
* a Confirm node completes with its declared default coerced to boolean,
  or `true` when none is declared, and never raises. -/
theorem C4_amended (env : Env) (hres : env.inputResolver = none) (st : ExecSt)
    (name : String) (message : Expression) :
    (∀ fuel ty, executeNode env (fuel + 1) (.prompt name message none ty) st =
      .error ("Input \"" ++ name ++
        "\" requires a value but no inputResolver is available and no default was specified")) ∧
    (∀ fuel ty d, ∃ st',
      executeNode env (fuel + 1) (.prompt name message (some d) ty) st = .ok st' ∧
      recGet st'.ctx.outputs name =
        (if ty.getD "text" = "number" then
          jsToNumberV (.str (jsToString (resolveExpression d (buildScope st.ctx))))
        else .str (jsToString (resolveExpression d (buildScope st.ctx))))) ∧
    (∀ fuel options lk vk ops,
      normalizeRawOptions lk vk (resolveExpression options (buildScope st.ctx)) = .ok ops →
      ∃ st', executeNode env (fuel + 1) (.select name message options lk vk) st = .ok st' ∧
        recGet st'.ctx.outputs name =
          .str (match ops with | p :: _ => p.1 | [] => "")) ∧
    (∀ fuel d, ∃ st',
      executeNode env (fuel + 1) (.confirm name message d) st = .ok st' ∧
      recGet st'.ctx.outputs name = .bool (match d with
        | some e => toBool (resolveExpression e (buildScope st.ctx))
        | none => true)) := by
  refine ⟨?_, ?_, ?_, ?_⟩
  · intro fuel ty
    simp [executeNode, handlePrompt, hres]
  · intro fuel ty d
    refine ⟨{ st with ctx := { st.ctx with
        outputs := recSet st.ctx.outputs name
          (if ty.getD "text" = "number" then
            jsToNumberV (.str (jsToString (resolveExpression d (buildScope st.ctx))))
          else .str (jsToString (resolveExpression d (buildScope st.ctx)))),
        contextStack := st.ctx.contextStack ++
          ["[User input \"" ++ name ++ "\": " ++
            jsToString (if ty.getD "text" = "number" then
              jsToNumberV (.str (jsToString (resolveExpression d (buildScope st.ctx))))
            else .str (jsToString (resolveExpression d (buildScope st.ctx)))) ++ "]"] } },
      ?_, ?_⟩
    · by_cases hty : ty.getD "text" = "number" <;>
        simp [executeNode, handlePrompt, hres, hty]
    · simp [recGet, recFind_recSet_self]
  · intro fuel options lk vk ops hops
    refine ⟨{ st with ctx := { st.ctx with
        outputs := recSet st.ctx.outputs name
          (.str (match ops with | p :: _ => p.1 | [] => "")),
        contextStack := st.ctx.contextStack ++
          ["[User selected \"" ++ name ++ "\": " ++
            (match ops with | p :: _ => p.1 | [] => "") ++ "]"] } },
      ?_, ?_⟩
    · cases ops with
      | nil => simp [executeNode, handleSelect, hres, hops]
      | cons p rest => simp [executeNode, handleSelect, hres, hops]
    · cases ops <;> simp [recGet, recFind_recSet_self]
  · intro fuel d
    refine ⟨{ st with ctx := { st.ctx with
        outputs := recSet st.ctx.outputs name
          (.bool (match d with
            | some e => toBool (resolveExpression e (buildScope st.ctx))
            | none => true)),
        contextStack := st.ctx.contextStack ++
          ["[User confirmed \"" ++ name ++ "\": " ++
            (if (match d with
              | some e => toBool (resolveExpression e (buildScope st.ctx))
              | none => true) then "true" else "false") ++ "]"] } },
      ?_, ?_⟩
    · cases d <;> simp [executeNode, handleConfirm, hres]
    · simp [recGet, recFind_recSet_self]

/-- Witness for C4 (amended), at concrete nodes: a defaulted Prompt
completes with its default, a default-less Prompt errors, and a Select over
the sample `items` input completes with the first option. -/
theorem C4_amended_witness :
    (executeNode sampleEnv 1 (.prompt "p" ⟨"m", true⟩ none none) sampleSt =
      .error "Input \"p\" requires a value but no inputResolver is available and no default was specified") ∧
    (∃ st', executeNode sampleEnv 1
        (.prompt "p" ⟨"m", true⟩ (some ⟨"fallback", true⟩) none) sampleSt = .ok st' ∧
      recGet st'.ctx.outputs "p" =
        (if (none : Option String).getD "text" = "number" then
          jsToNumberV (.str (jsToString (resolveExpression ⟨"fallback", true⟩ (buildScope sampleSt.ctx))))
        else .str (jsToString (resolveExpression ⟨"fallback", true⟩ (buildScope sampleSt.ctx))))) ∧
    (∃ st', executeNode sampleEnv 1
        (.select "s" ⟨"m", true⟩ ⟨"items", false⟩ none none) sampleSt = .ok st' ∧
      recGet st'.ctx.outputs "s" = .str "10") := by
  refine ⟨(C4_amended sampleEnv rfl sampleSt "p" ⟨"m", true⟩).1 0 none,
    (C4_amended sampleEnv rfl sampleSt "p" ⟨"m", true⟩).2.1 0 none ⟨"fallback", true⟩,
    ?_⟩
  obtain ⟨st', h₁, h₂⟩ :=
    (C4_amended sampleEnv rfl sampleSt "s" ⟨"m", true⟩).2.2.1 0
      ⟨"items", false⟩ none none [("10", "10"), ("20", "20")] (by rfl)
  exact ⟨st', h₁, h₂⟩

end Amps

namespace Amps

-- ─── C5: structured soft failure ───────────────────────────────────────────

/-- The raw LLM response `handleStructured` receives (the call boundary's
value for the structured prompt). -/
def structuredRawResponse (env : Env) (fuel : Nat) (model : Option String)
    (fields : List FieldDef) (st : ExecSt) : String :=
  (callLLM env (pickModel env model) (structuredPrompt fuel fields st) st).1

/-- **C5** — Structured soft failure: when the LLM response for a
Structured node cannot be parsed as JSON — not directly after
fence-stripping, and not via the brace-substring heuristic — the node does
not throw: it completes with `.ok`, its named output is the sentinel object
carrying the raw response under `_raw` and an error indicator under
`_error`, and execution continues with the following nodes from the
resulting state. -/
theorem C5_structured_soft_failure (env : Env) (fuel : Nat) (name : String)
    (model : Option String) (fields : List FieldDef) (rest : List WorkflowNode)
    (st : ExecSt)
    (h₁ : jsonParse (cleanResponse (structuredRawResponse env fuel model fields st)) = none)
    (h₂ : ∀ sub, braceSubstring (structuredRawResponse env fuel model fields st) = some sub →
      jsonParse sub = none) :
    ∃ st' err,
      handleStructured env fuel name model fields st = .ok st' ∧
      recGet st'.ctx.outputs name =
        .obj [("_raw", .str (structuredRawResponse env fuel model fields st)),
              ("_error", .str err)] ∧
      (err = "Failed to parse JSON" ∨ err = "No JSON found in response") ∧
      executeNodes env (fuel + 2) (.structured name model fields :: rest) st =
        executeNodes env (fuel + 1) rest st' := by
  have hparsed : parseStructuredResponse (structuredRawResponse env fuel model fields st) =
      .obj [("_raw", .str (structuredRawResponse env fuel model fields st)),
            ("_error", .str (match braceSubstring (structuredRawResponse env fuel model fields st) with
              | some _ => "Failed to parse JSON"
              | none => "No JSON found in response"))] := by
    unfold parseStructuredResponse
    rw [h₁]
    cases hb : braceSubstring (structuredRawResponse env fuel model fields st) with
    | some sub => simp [h₂ sub hb]
    | none => rfl
  refine ⟨{ st with
      ctx := { st.ctx with
        outputs := recSet st.ctx.outputs name
          (parseStructuredResponse (structuredRawResponse env fuel model fields st)),
        contextStack := st.ctx.contextStack ++
          [jsonStringify2 (parseStructuredResponse (structuredRawResponse env fuel model fields st))] },
      llmCalls := st.llmCalls ++
        [(pickModel env model, structuredPrompt fuel fields st)] },
    (match braceSubstring (structuredRawResponse env fuel model fields st) with
      | some _ => "Failed to parse JSON"
      | none => "No JSON found in response"),
    ?_, ?_, ?_, ?_⟩
  · rfl
  · rw [hparsed]
    simp [recGet, recFind_recSet_self]
  · cases braceSubstring (structuredRawResponse env fuel model fields st) <;> simp
  · rfl

/-- Witness for C5 at the spec's own scenario: response `"not json at all"`
— no fences, no brace substring — completes with the sentinel output. -/
theorem C5_structured_soft_failure_witness :
    ∃ st' err,
      handleStructured { sampleEnv with stream := fun _ _ _ => "not json at all" }
        1 "s" none [.mk (some "a") "text" none none] sampleSt = .ok st' ∧
      recGet st'.ctx.outputs "s" =
        .obj [("_raw", .str (structuredRawResponse
                { sampleEnv with stream := fun _ _ _ => "not json at all" }
                1 none [.mk (some "a") "text" none none] sampleSt)),
              ("_error", .str err)] ∧
      (err = "Failed to parse JSON" ∨ err = "No JSON found in response") ∧
      executeNodes { sampleEnv with stream := fun _ _ _ => "not json at all" } 3
          (.structured "s" none [.mk (some "a") "text" none none] :: [.prose "next"]) sampleSt =
        executeNodes { sampleEnv with stream := fun _ _ _ => "not json at all" } 2
          [.prose "next"] st' :=
  C5_structured_soft_failure _ 1 "s" none [.mk (some "a") "text" none none]
    [.prose "next"] sampleSt (by rfl)
    (fun sub h => by
      rw [show braceSubstring (structuredRawResponse
          { sampleEnv with stream := fun _ _ _ => "not json at all" }
          1 none [.mk (some "a") "text" none none] sampleSt) = none from rfl] at h
      cases h)

end Amps

namespace Amps

-- ─── C3: loop iterations and the outputs namespace (corrected) ─────────────

theorem recHas_recSet (r : Rec) (k k₁ : String) (v : Value) :
    recHas (recSet r k₁ v) k = ((k₁ = k) || recHas r k) := by
  by_cases h : k₁ = k
  · subst h
    simp [recHas, recFind_recSet_self]
  · simp [recHas, recFind_recSet_ne r k k₁ v h, h]

theorem recFind_recMerge_none (a b : Rec) (k : String)
    (ha : recFind a k = none) (hb : recFind b k = none) :
    recFind (recMerge a b) k = none := by
  induction b generalizing a with
  | nil => exact ha
  | cons kv rest ih =>
    obtain ⟨k₁, v₁⟩ := kv
    have hne : k₁ ≠ k := by
      intro h
      rw [show recFind ((k₁, v₁) :: rest) k = some v₁ from by simp [recFind, h]] at hb
      cases hb
    have hrest : recFind rest k = none := by
      simpa [recFind, hne] using hb
    show recFind (recMerge (recSet a k₁ v₁) rest) k = none
    exact ih (recSet a k₁ v₁) (by rw [recFind_recSet_ne a k k₁ v₁ hne]; exact ha) hrest

theorem recHas_eq_false_iff (r : Rec) (k : String) :
    recHas r k = false ↔ recFind r k = none := by
  unfold recHas
  cases recFind r k <;> simp

/-- **C3 counterexample** — the claim asserts that an output recorded under
a fresh key during iteration `i` is present in the expression scope of
iteration `i + 1`.  Concretely: a two-iteration loop whose children probe
`acc` (via `Set probe value={acc}`) and then record `acc = "x"`
(`Set acc value={"x"}`).  If `acc` carried over, iteration 1's probe would
record `"x"`; instead both iterations record `probe = undefined`, because
`handleLoop` restores the iteration-start outputs snapshot after every
iteration.  The final conjunct shows iteration 1's own start-of-iteration
outputs lack `acc` entirely. -/
theorem C3_counterexample :
    ∃ st', executeNode sampleEnv 9
        (.loop "l" (some ⟨"items", false⟩) none
          [.set "probe" ⟨"acc", false⟩, .set "acc" ⟨"\x22x\x22", false⟩])
        sampleSt = .ok st' ∧
      recGet st'.ctx.outputs "l" = .arr [
        .obj [("item", .num 10), ("index", .num 0), ("probe", .undef), ("acc", .str "x")],
        .obj [("item", .num 20), ("index", .num 1), ("probe", .undef), ("acc", .str "x")]] ∧
      Value.undef ≠ Value.str "x" ∧
      recHas (iterationStartOutputs [] (some [.num 10, .num 20]) 1) "acc" = false := by
  refine ⟨_, rfl, rfl, fun h => Value.noConfusion h, rfl⟩

/-- **C3 amended** — Loop iterations do not share output writes: each
iteration begins from the loop-entry outputs plus only the injected
`item`/`index` bindings (so a key absent at loop entry — in particular one
first recorded by a child during an earlier iteration — is absent from the
iteration's start outputs and from its expression scope), and when an
iteration completes, `runIteration` restores the outputs to exactly the
iteration-start snapshot, discarding every write its children made.
Cross-iteration accumulation through `outputs` is therefore impossible;
iteration writes survive only inside the per-iteration results record. -/
theorem C3_amended (env : Env) (fuel : Nat) (children : List WorkflowNode)
    (items : Option (List Value)) (preLoop : List String) (i : Nat)
    (st : ExecSt) (k : String)
    (hk₁ : k ≠ "item") (hk₂ : k ≠ "index")
    (hout : recHas st.ctx.outputs k = false) :
    recHas (iterationStartOutputs st.ctx.outputs items i) k = false ∧
    (recHas st.ctx.inputs k = false →
      recHas (buildScope { st.ctx with
        outputs := iterationStartOutputs st.ctx.outputs items i }) k = false) ∧
    (∀ st' rec, runIteration env (fuel + 1) children items preLoop i st = .ok (st', rec) →
      st'.ctx.outputs = st.ctx.outputs) := by
  have hstart : recHas (iterationStartOutputs st.ctx.outputs items i) k = false := by
    unfold iterationStartOutputs
    rw [recHas_recSet, recHas_recSet]
    simp [hout, Ne.symm hk₁, Ne.symm hk₂]
  refine ⟨hstart, ?_, ?_⟩
  · intro hin
    rw [recHas_eq_false_iff]
    exact recFind_recMerge_none _ _ k ((recHas_eq_false_iff _ _).mp hin)
      ((recHas_eq_false_iff _ _).mp hstart)
  · intro st' rec h
    unfold runIteration at h
    simp only [] at h
    split at h
    · cases h
    · cases h
      rfl

/-- Witness for C3 (amended), at the counterexample's own loop: `acc` is
absent from iteration 1's start outputs and scope, and a completed
iteration 0 restores the outputs to the (empty) loop-entry snapshot. -/
theorem C3_amended_witness :
    (recHas (iterationStartOutputs sampleSt.ctx.outputs (some [.num 10, .num 20]) 1)
        "acc" = false) ∧
    (recHas (buildScope { sampleSt.ctx with
        outputs := iterationStartOutputs sampleSt.ctx.outputs
          (some [.num 10, .num 20]) 1 }) "acc" = false) ∧
    (∀ st' rec, runIteration sampleEnv 9
        [.set "probe" ⟨"acc", false⟩, .set "acc" ⟨"\x22x\x22", false⟩]
        (some [.num 10, .num 20]) [] 0 sampleSt = .ok (st', rec) →
      st'.ctx.outputs = sampleSt.ctx.outputs) := by
  obtain ⟨h₁, h₂, h₃⟩ := C3_amended sampleEnv 8
    [.set "probe" ⟨"acc", false⟩, .set "acc" ⟨"\x22x\x22", false⟩]
    (some [.num 10, .num 20]) [] 0 sampleSt "acc"
    (by decide) (by decide) (by rfl)
  refine ⟨?_, ?_, h₃⟩
  · exact C3_amended sampleEnv 8
      [.set "probe" ⟨"acc", false⟩, .set "acc" ⟨"\x22x\x22", false⟩]
      (some [.num 10, .num 20]) [] 1 sampleSt "acc"
      (by decide) (by decide) (by rfl) |>.1
  · exact (C3_amended sampleEnv 8
      [.set "probe" ⟨"acc", false⟩, .set "acc" ⟨"\x22x\x22", false⟩]
      (some [.num 10, .num 20]) [] 1 sampleSt "acc"
      (by decide) (by decide) (by rfl)).2.1 (by rfl)

end Amps

namespace Amps

-- ─── Context-stack monotonicity (for C1) ───────────────────────────────────

theorem handleProse_stack (env : Env) (c : String) (st st₁ : ExecSt)
    (h : handleProse env c st = .ok st₁) :
    st.ctx.contextStack <+: st₁.ctx.contextStack := by
  unfold handleProse at h
  cases h
  exact List.prefix_append _ _

theorem handleGeneration_stack (env : Env) (n : String) (m : Option String)
    (st st₁ : ExecSt) (h : handleGeneration env n m st = .ok st₁) :
    st.ctx.contextStack <+: st₁.ctx.contextStack := by
  unfold handleGeneration at h
  cases h
  exact List.prefix_append _ _

theorem handleStructured_stack (env : Env) (fuel : Nat) (n : String)
    (m : Option String) (fs : List FieldDef) (st st₁ : ExecSt)
    (h : handleStructured env fuel n m fs st = .ok st₁) :
    st.ctx.contextStack <+: st₁.ctx.contextStack := by
  unfold handleStructured at h
  cases h
  exact List.prefix_append _ _

theorem handleWebSearch_stack (env : Env) (n : String) (q : Expression)
    (st st₁ : ExecSt) (h : handleWebSearch env n q st = .ok st₁) :
    st.ctx.contextStack <+: st₁.ctx.contextStack := by
  unfold handleWebSearch at h
  cases h
  exact List.prefix_append _ _

theorem handleWebFetch_stack (env : Env) (n : String) (u : Expression)
    (st st₁ : ExecSt) (h : handleWebFetch env n u st = .ok st₁) :
    st.ctx.contextStack <+: st₁.ctx.contextStack := by
  unfold handleWebFetch at h
  cases h
  exact List.prefix_append _ _

theorem handleSet_stack (env : Env) (n : String) (v : Expression)
    (st st₁ : ExecSt) (h : handleSet env n v st = .ok st₁) :
    st.ctx.contextStack <+: st₁.ctx.contextStack := by
  unfold handleSet at h
  cases h
  exact List.prefix_rfl

theorem handleLog_stack (env : Env) (c : String) (st st₁ : ExecSt)
    (h : handleLog env c st = .ok st₁) :
    st.ctx.contextStack <+: st₁.ctx.contextStack := by
  unfold handleLog at h
  cases h
  exact List.prefix_rfl

theorem handleFlow_stack (env : Env) (n s : String)
    (inputs : Option (List (String × Expression))) (st st₁ : ExecSt)
    (h : handleFlow env n s inputs st = .ok st₁) :
    st.ctx.contextStack <+: st₁.ctx.contextStack := by
  unfold handleFlow at h
  simp only [] at h
  split at h
  · cases h
  · cases h
    exact List.prefix_append _ _

theorem handlePrompt_stack (env : Env) (n : String) (m : Expression)
    (d : Option Expression) (ty : Option String) (st st₁ : ExecSt)
    (h : handlePrompt env n m d ty st = .ok st₁) :
    st.ctx.contextStack <+: st₁.ctx.contextStack := by
  unfold handlePrompt at h
  simp only [] at h
  repeat' split at h
  all_goals cases h
  all_goals exact List.prefix_append _ _

theorem handleSelect_stack (env : Env) (n : String) (m o : Expression)
    (lk vk : Option String) (st st₁ : ExecSt)
    (h : handleSelect env n m o lk vk st = .ok st₁) :
    st.ctx.contextStack <+: st₁.ctx.contextStack := by
  unfold handleSelect at h
  simp only [] at h
  repeat' split at h
  all_goals cases h
  all_goals exact List.prefix_append _ _

theorem handleConfirm_stack (env : Env) (n : String) (m : Expression)
    (d : Option Expression) (st st₁ : ExecSt)
    (h : handleConfirm env n m d st = .ok st₁) :
    st.ctx.contextStack <+: st₁.ctx.contextStack := by
  unfold handleConfirm at h
  simp only [] at h
  repeat' split at h
  all_goals cases h
  all_goals exact List.prefix_append _ _

theorem handleLoop_stack (env : Env) (fuel : Nat) (n : String)
    (o c : Option Expression) (ch : List WorkflowNode) (st st₁ : ExecSt)
    (h : handleLoop env fuel n o c ch st = .ok st₁) :
    st.ctx.contextStack <+: st₁.ctx.contextStack := by
  cases fuel with
  | zero => simp [handleLoop] at h
  | succ f =>
    simp only [handleLoop] at h
    split at h
    · cases h
    · cases h
      exact List.prefix_append _ _

/-- Context-stack monotonicity: a node (or node sequence) that completes
leaves the stack it started from as a prefix of the stack it produces —
entries are never removed from under the current sequence (loops restore
their pre-loop snapshot before appending the summary). -/
theorem exec_stack_mono (env : Env) : ∀ fuel,
    (∀ node st st₁, executeNode env fuel node st = .ok st₁ →
      st.ctx.contextStack <+: st₁.ctx.contextStack) ∧
    (∀ nodes st st₁, executeNodes env fuel nodes st = .ok st₁ →
      st.ctx.contextStack <+: st₁.ctx.contextStack) := by
  intro fuel
  induction fuel with
  | zero =>
    constructor <;> (intro x st st₁ h; simp [executeNode, executeNodes] at h)
  | succ f ih =>
    obtain ⟨ihNode, ihNodes⟩ := ih
    constructor
    · intro node st st₁ h
      cases node with
      | prose c => simp only [executeNode] at h; exact handleProse_stack _ _ _ _ h
      | generation n m t mx sp =>
        simp only [executeNode] at h; exact handleGeneration_stack _ _ _ _ _ h
      | structured n m fs =>
        simp only [executeNode] at h; exact handleStructured_stack _ _ _ _ _ _ _ h
      | websearch n q mr p =>
        simp only [executeNode] at h; exact handleWebSearch_stack _ _ _ _ _ h
      | webfetch n u mt s =>
        simp only [executeNode] at h; exact handleWebFetch_stack _ _ _ _ _ h
      | loop n o c ch =>
        simp only [executeNode] at h; exact handleLoop_stack _ _ _ _ _ _ _ _ h
      | ifNode cond ch ec =>
        simp only [executeNode] at h
        split at h
        · exact ihNodes ch st st₁ h
        · cases ec with
          | some l => exact ihNodes l st st₁ h
          | none => cases h; exact List.prefix_rfl
      | set n v => simp only [executeNode] at h; exact handleSet_stack _ _ _ _ _ h
      | log l c => simp only [executeNode] at h; exact handleLog_stack _ _ _ _ h
      | comment => simp only [executeNode] at h; cases h; exact List.prefix_rfl
      | flow n s i => simp only [executeNode] at h; exact handleFlow_stack _ _ _ _ _ _ h
      | prompt n m d ty =>
        simp only [executeNode] at h; exact handlePrompt_stack _ _ _ _ _ _ _ h
      | select n m o lk vk =>
        simp only [executeNode] at h; exact handleSelect_stack _ _ _ _ _ _ _ _ h
      | confirm n m d =>
        simp only [executeNode] at h; exact handleConfirm_stack _ _ _ _ _ _ h
    · intro nodes st st₁ h
      cases nodes with
      | nil => simp only [executeNodes] at h; cases h; exact List.prefix_rfl
      | cons n rest =>
        simp only [executeNodes] at h
        cases hex : executeNode env f n st with
        | error e => rw [hex] at h; cases h
        | ok st₂ =>
          rw [hex] at h
          exact (ihNode n st st₂ hex).trans (ihNodes rest st₂ st₁ h)

end Amps

namespace Amps

-- ─── C1: prefix visibility (corrected) ─────────────────────────────────────

theorem joinSep_append (sep : String) (l t : List String) :
    ∃ ext, joinSep sep (l ++ t) = joinSep sep l ++ ext := by
  induction l with
  | nil => exact ⟨joinSep sep t, rfl⟩
  | cons x xs ih =>
    cases xs with
    | nil =>
      cases t with
      | nil => exact ⟨"", by simp [joinSep]⟩
      | cons y t' =>
        exact ⟨sep ++ joinSep sep (y :: t'), by simp [joinSep, String.append_assoc]⟩
    | cons z zs =>
      obtain ⟨ext, hext⟩ := ih
      refine ⟨ext, ?_⟩
      show joinSep sep (x :: (z :: zs ++ t)) = joinSep sep (x :: z :: zs) ++ ext
      rw [show joinSep sep (x :: (z :: zs ++ t)) =
          x ++ sep ++ joinSep sep (z :: zs ++ t) from rfl, hext]
      simp [joinSep, String.append_assoc]

/-- **C1 counterexample** — a Loop over two items with children
`Prose "it{index}" ; Generation g` (LLM echoing the prompt).  The
generation of iteration 0 (call A, prompt `"it0"`) completes before the
generation of iteration 1 (call B, prompt `"it1"`) starts — the LLM-call
log records them in run order.  At A's execution the context stack held
the entry `"it0"` (A's prompt is its blank-line join) and A pushed its own
response; yet B's prompt `"it1"` does not contain `"it0"` at all
(`indexOf` fails), in particular not as a prefix.  The claim's
cross-iteration extension is therefore false on the code: each iteration's
stack is reset to the pre-loop snapshot. -/
theorem C1_counterexample :
    ∃ st', executeNode echoEnv 9
        (.loop "l" (some ⟨"items", false⟩) none
          [.prose "it\x7bindex\x7d", .generation "g" none none none none])
        sampleSt = .ok st' ∧
      st'.llmCalls.map Prod.snd = ["it0", "it1"] ∧
      findSubFrom "it1".data "it0".data 0 = none :=
  ⟨_, rfl, rfl, rfl⟩

/-- **C1 amended** — Prefix visibility within one executed node sequence:
if `pre ; A ; mid` execute in order (each completing) and `B` is a
generation (or structured) node executed next in that same sequence, then

* A's own step only appends to the stack (everything present at A is still
  present after A);
* the prompt actually sent for B — recorded at the LLM-call boundary — is
  the blank-line join of the stack at B, and it contains the join of the
  stack as A left it (hence every entry present at or pushed by A, in
  order) as a string prefix.

The original claim's extension across loop-iteration boundaries is false
(see the counterexample): the executor resets the stack to the pre-loop
snapshot at every iteration start, so an A inside an earlier iteration is
not visible to a B in a later one. -/
theorem C1_amended (env : Env) (fuel₁ fuel₂ fuel₃ fuel₄ : Nat)
    (pre mid : List WorkflowNode) (A : WorkflowNode)
    (Bname : String) (Bmodel : Option String) (Bt Bmax : Option Value)
    (Bstop : Option Value) (st₀ st₁ st₂ st₃ : ExecSt)
    (_hpre : executeNodes env fuel₁ pre st₀ = .ok st₁)
    (hA : executeNode env fuel₂ A st₁ = .ok st₂)
    (hmid : executeNodes env fuel₃ mid st₂ = .ok st₃) :
    st₁.ctx.contextStack <+: st₂.ctx.contextStack ∧
    (∃ st₄, executeNode env (fuel₄ + 1)
        (.generation Bname Bmodel Bt Bmax Bstop) st₃ = .ok st₄ ∧
      st₄.llmCalls = st₃.llmCalls ++ [(pickModel env Bmodel, generationPrompt st₃)] ∧
      ∃ ext, generationPrompt st₃ = joinSep "\n\n" st₂.ctx.contextStack ++ ext) ∧
    (∀ f₂ sname smodel sfields, ∃ st₅, executeNode env (f₂ + 1)
        (.structured sname smodel sfields) st₃ = .ok st₅ ∧
      st₅.llmCalls = st₃.llmCalls ++
        [(pickModel env smodel, structuredPrompt f₂ sfields st₃)] ∧
      ∃ ext, structuredPrompt f₂ sfields st₃ =
        joinSep "\n\n" st₂.ctx.contextStack ++ ext) := by
  have hmono := (exec_stack_mono env fuel₃).2 mid st₂ st₃ hmid
  obtain ⟨t, ht⟩ := hmono
  have hjoin : ∃ ext, joinSep "\n\n" st₃.ctx.contextStack =
      joinSep "\n\n" st₂.ctx.contextStack ++ ext := by
    rw [← ht]
    exact joinSep_append "\n\n" st₂.ctx.contextStack t
  obtain ⟨ext, hext⟩ := hjoin
  refine ⟨(exec_stack_mono env fuel₂).1 A st₁ st₂ hA, ⟨_, rfl, rfl, ext, hext⟩, ?_⟩
  intro f₂ sname smodel sfields
  refine ⟨_, rfl, rfl, ext ++ ("\n\n" ++
    "Respond with ONLY valid JSON matching this schema:\n" ++
    describeFieldsForPrompt f₂ sfields 0 ++
    "\n\nJSON Schema:\n```json\n" ++
    jsonStringify2 (buildJsonSchemaFromFields f₂ sfields) ++
    "\n```\n\n" ++
    "Output ONLY the JSON object, no markdown fences, no explanation."), ?_⟩
  unfold structuredPrompt
  unfold generationPrompt at hext
  rw [hext]
  simp [String.append_assoc]

end Amps

namespace Amps

/-- Intermediate states of the spec's sequential-generation scenario
(`Prose "Write about cats" ; Generation a ; Prose "Critique it." ;
Generation b`) under the echoing LLM, used by the C1 witness. -/
def c1wSt₀ : ExecSt :=
  { ctx := { inputs := [], outputs := [], contextStack := [] }, llmCalls := [] }

def c1wSt₁ : ExecSt :=
  { ctx := { inputs := [], outputs := [], contextStack := ["Write about cats"] },
    llmCalls := [] }

def c1wSt₂ : ExecSt :=
  { ctx := { inputs := [], outputs := [("a", .str "Write about cats")],
             contextStack := ["Write about cats", "Write about cats"] },
    llmCalls := [("azure/gpt-5.2", "Write about cats")] }

def c1wSt₃ : ExecSt :=
  { ctx := { inputs := [], outputs := [("a", .str "Write about cats")],
             contextStack := ["Write about cats", "Write about cats", "Critique it."] },
    llmCalls := [("azure/gpt-5.2", "Write about cats")] }

/-- Witness for C1 (amended) at the spec's sequential-generation scenario:
generation `b`'s prompt extends the join of the stack as generation `a`
left it. -/
theorem C1_amended_witness :
    c1wSt₁.ctx.contextStack <+: c1wSt₂.ctx.contextStack ∧
    (∃ st₄, executeNode echoEnv 3 (.generation "b" none none none none) c1wSt₃ = .ok st₄ ∧
      st₄.llmCalls = c1wSt₃.llmCalls ++
        [(pickModel echoEnv none, generationPrompt c1wSt₃)] ∧
      ∃ ext, generationPrompt c1wSt₃ =
        joinSep "\n\n" c1wSt₂.ctx.contextStack ++ ext) ∧
    (∀ f₂ sname smodel sfields, ∃ st₅, executeNode echoEnv (f₂ + 1)
        (.structured sname smodel sfields) c1wSt₃ = .ok st₅ ∧
      st₅.llmCalls = c1wSt₃.llmCalls ++
        [(pickModel echoEnv smodel, structuredPrompt f₂ sfields c1wSt₃)] ∧
      ∃ ext, structuredPrompt f₂ sfields c1wSt₃ =
        joinSep "\n\n" c1wSt₂.ctx.contextStack ++ ext) :=
  C1_amended echoEnv 2 2 2 2 [.prose "Write about cats"] [.prose "Critique it."]
    (.generation "a" none none none none) "b" none none none none
    c1wSt₀ c1wSt₁ c1wSt₂ c1wSt₃ (by rfl) (by rfl) (by rfl)

end Amps

namespace Amps

-- ─── Prop parsing (`parser.ts`) ────────────────────────────────────────────

/-- The `\w`-style character class `[a-zA-Z0-9_]` used when reading prop
keys. -/
def isWordChar (c : Char) : Bool :=
  c.isAlphanum || c = '_'

mutual

/-- `findMatchingBrace(str, start)` from `parser.ts`: depth-counting scan
that skips string/template-literal contents, recursing into template
interpolations.  Index-based like the source; fuelled (the wrapper supplies
ample fuel); `none` is the source's `-1`. -/
def fmbGo : Nat → List Char → Nat → Nat → Option Nat
  | 0, _, _, _ => none
  | fuel + 1, str, i, depth =>
    if i ≥ str.length then none
    else
      let ch := (charAt str i).getD ' '
      if ch = obrace then fmbGo fuel str (i + 1) (depth + 1)
      else if ch = cbrace then
        if depth = 1 then some i
        else fmbGo fuel str (i + 1) (depth - 1)
      else if ch = '"' ∨ ch = squote ∨ ch = btick then
        match fmbSkipString fuel str ch (i + 1) with
        | none => none
        | some j => fmbGo fuel str (j + 1) depth
      else fmbGo fuel str (i + 1) depth

/-- The string-skipping inner loop of `findMatchingBrace`: returns the
position where the loop breaks (the closing quote, or past the end), or
`none` when a nested template interpolation is unbalanced. -/
def fmbSkipString : Nat → List Char → Char → Nat → Option Nat
  | 0, _, _, _ => none
  | fuel + 1, str, quote, i =>
    if i ≥ str.length then some i
    else
      let c := (charAt str i).getD ' '
      if c = '\\' then fmbSkipString fuel str quote (i + 2)
      else if c = quote then some i
      else if quote = btick ∧ c = '$' ∧ charAt str (i + 1) = some obrace then
        match fmbGo fuel str (i + 1) 0 with
        | none => none
        | some e => fmbSkipString fuel str quote (e + 1)
      else fmbSkipString fuel str quote (i + 1)

end

def findMatchingBrace (str : List Char) (start : Nat) : Option Nat :=
  fmbGo (4 * str.length + 16) str start 0

/-- Prop-map update (`props[key] = value` — replace in place or append). -/
def propsSet (r : List (String × Expression)) (k : String) (v : Expression) :
    List (String × Expression) :=
  match r with
  | [] => [(k, v)]
  | (k₁, v₁) :: rest =>
    if k₁ = k then (k, v) :: rest else (k₁, v₁) :: propsSet rest k v

def propsFind (r : List (String × Expression)) (k : String) : Option Expression :=
  match r with
  | [] => none
  | (k₁, v₁) :: rest => if k₁ = k then some v₁ else propsFind rest k

/-- The double-quoted prop-value reader inside `parseProps`: reads up to the
closing quote honouring backslash escapes, returning the value and the
characters after the closing quote. -/
def readQuotedProp : Nat → List Char → List Char → String × List Char
  | 0, cs, acc => (String.mk acc, cs)
  | fuel + 1, cs, acc =>
    match cs with
    | [] => (String.mk acc, [])
    | '\\' :: r =>
      match r with
      | [] => (String.mk acc, [])
      | c :: r₂ => readQuotedProp fuel r₂ (acc ++ [c])
    | '"' :: r => (String.mk acc, r)
    | c :: r => readQuotedProp fuel r (acc ++ [c])

/-- The scanning loop of `parseProps`, consuming the remaining attribute
characters: skip whitespace, read a key, then `=` plus a quoted / braced /
bare value — or, with no `=`, bind the key to the static expression
`"true"` (the boolean-prop branch). -/
def parsePropsGo : Nat → List Char → List (String × Expression) →
    List (String × Expression)
  | 0, _, props => props
  | fuel + 1, cs, props =>
    let cs₁ := cs.dropWhile Char.isWhitespace
    if cs₁.isEmpty then props
    else
      let key := String.mk (cs₁.takeWhile isWordChar)
      let rest := cs₁.dropWhile isWordChar
      if key = "" then parsePropsGo fuel (cs₁.drop 1) props
      else
        let rest₁ := rest.dropWhile Char.isWhitespace
        match rest₁ with
        | '=' :: rest₂ =>
          let rest₃ := rest₂.dropWhile Char.isWhitespace
          match rest₃ with
          | '"' :: r =>
            let vr := readQuotedProp (r.length + 2) r []
            parsePropsGo fuel vr.2 (propsSet props key (Expression.mk vr.1 true))
          | c :: r =>
            if c = obrace then
              match findMatchingBrace rest₃ 0 with
              | none => propsSet props key (Expression.mk (String.mk r) false)
              | some e =>
                parsePropsGo fuel (rest₃.drop (e + 1))
                  (propsSet props key
                    (Expression.mk (jsTrim (String.mk (sliceChars rest₃ 1 e))) false))
            else
              let bare := rest₃.takeWhile (fun ch => ¬ ch.isWhitespace)
              parsePropsGo fuel (rest₃.dropWhile (fun ch => ¬ ch.isWhitespace))
                (propsSet props key (Expression.mk (String.mk bare) true))
          | [] =>
            parsePropsGo fuel [] (propsSet props key (Expression.mk "" true))
        | _ =>
          parsePropsGo fuel rest₁ (propsSet props key (Expression.mk "true" true))

/-- `parseProps(attrStr)` from `parser.ts`. -/
def parseProps (attrStr : String) : List (String × Expression) :=
  parsePropsGo (attrStr.length + 2) (jsTrim attrStr).data []

end Amps

namespace Amps

-- ─── C9: boolean props (corrected) ─────────────────────────────────────────

theorem isWordChar_not_ws (c : Char) (h : isWordChar c = true) :
    c.isWhitespace = false := by
  cases hw : c.isWhitespace
  · rfl
  · exfalso
    simp [Char.isWhitespace] at hw
    rcases hw with ((h₁ | h₁) | h₁) | h₁ <;> (subst h₁; exact absurd h (by decide))

theorem takeWhile_all_append {p : Char → Bool} (k rest : List Char)
    (hk : k.all p = true)
    (hrest : match rest with | [] => True | c :: _ => p c = false) :
    (k ++ rest).takeWhile p = k ∧ (k ++ rest).dropWhile p = rest := by
  induction k with
  | nil =>
    simp only [List.nil_append]
    cases rest with
    | nil => simp
    | cons c r => simp_all [List.takeWhile, List.dropWhile]
  | cons c k' ih =>
    rw [List.all_cons, Bool.and_eq_true] at hk
    obtain ⟨h₁, h₂⟩ := ih hk.2
    simp [List.takeWhile, List.dropWhile, hk.1, h₁, h₂]

/-- **C9 counterexample** — the claim asserts that a bare prop key
resolves, via `resolveExpression`, to the boolean value `true`.  In the
code, `parseProps` binds a key with no `=` to the *static expression*
`"true"`, and `resolveExpression` returns a static expression's raw string
unchanged: the resolution is the string `"true"`, which is not the boolean
`true`. -/
theorem C9_counterexample :
    parseProps "flag" = [("flag", Expression.mk "true" true)] ∧
    resolveExpression (Expression.mk "true" true) [] = .str "true" ∧
    Value.str "true" ≠ Value.bool true :=
  ⟨rfl, rfl, fun h => Value.noConfusion h⟩

/-- **C9 amended** — Boolean props resolve to the string `"true"`: a key
with no `=` is bound by `parseProps` to the static expression `"true"`,
whose resolution via `resolveExpression` in *every* scope is the string
`"true"` (truthy, but not the boolean `true`).  The first conjunct settles
the bare-key scan step for any key and suffix: when the scanner reaches
`key ++ rest` where no `=` follows the key, it binds `key ↦ "true"`
(static) and continues scanning `rest`; the second settles whole
single-key attribute strings; the third is the every-scope resolution. -/
theorem C9_amended :
    (∀ fuel (k rest : List Char) props,
      k ≠ [] → k.all isWordChar = true →
      (match rest with | [] => True | c :: _ => isWordChar c = false) →
      (match rest.dropWhile Char.isWhitespace with
        | '=' :: _ => False | _ => True) →
      parsePropsGo (fuel + 1) (k ++ rest) props =
        parsePropsGo fuel (rest.dropWhile Char.isWhitespace)
          (propsSet props (String.mk k) (Expression.mk "true" true))) ∧
    (∀ (k : List Char), k ≠ [] → k.all isWordChar = true →
      parseProps (String.mk k) = [(String.mk k, Expression.mk "true" true)]) ∧
    (∀ scope, resolveExpression (Expression.mk "true" true) scope = .str "true") := by
  have hstep : ∀ fuel (k rest : List Char) props,
      k ≠ [] → k.all isWordChar = true →
      (match rest with | [] => True | c :: _ => isWordChar c = false) →
      (match rest.dropWhile Char.isWhitespace with
        | '=' :: _ => False | _ => True) →
      parsePropsGo (fuel + 1) (k ++ rest) props =
        parsePropsGo fuel (rest.dropWhile Char.isWhitespace)
          (propsSet props (String.mk k) (Expression.mk "true" true)) := by
    intro fuel k rest props hne hall hrest heq
    obtain ⟨c, k', rfl⟩ : ∃ c k', k = c :: k' := by
      cases k with
      | nil => exact absurd rfl hne
      | cons c k' => exact ⟨c, k', rfl⟩
    have hall' := hall
    rw [List.all_cons, Bool.and_eq_true] at hall'
    have hnws : c.isWhitespace = false := isWordChar_not_ws c hall'.1
    obtain ⟨htake, hdrop⟩ := takeWhile_all_append (c :: k') rest hall hrest
    have hdw : ((c :: k') ++ rest).dropWhile Char.isWhitespace = (c :: k') ++ rest := by
      simp [List.dropWhile, hnws]
    show parsePropsGo (fuel + 1) ((c :: k') ++ rest) props = _
    simp only [List.cons_append] at hdw htake hdrop ⊢
    rw [parsePropsGo]
    simp only [hdw, htake, hdrop, List.isEmpty_cons, Bool.false_eq_true, if_false]
    have hkey : String.mk (c :: k') ≠ "" := by
      intro h
      have : (c :: k').length = ("" : String).length := by rw [← h]; rfl
      simp at this
    rw [if_neg hkey]
    split
    all_goals try rfl
    all_goals (rename_i heq₂; rw [heq₂] at heq; exact heq.elim)
  refine ⟨hstep, ?_, fun scope => rfl⟩
  intro k hne hall
  have hnws : ∀ c ∈ k, c.isWhitespace = false := by
    intro c hc
    exact isWordChar_not_ws c (List.all_eq_true.mp hall c hc)
  have htrim : jsTrim (String.mk k) = String.mk k := by
    unfold jsTrim
    have h₁ : k.dropWhile Char.isWhitespace = k := by
      cases k with
      | nil => rfl
      | cons c k' => simp [List.dropWhile, hnws c (List.mem_cons_self c k')]
    rw [show (String.mk k).data = k from rfl, h₁]
    have h₂ : k.reverse.dropWhile Char.isWhitespace = k.reverse := by
      cases hk : k.reverse with
      | nil => rfl
      | cons c k' =>
        have hc : c ∈ k := by
          have : c ∈ k.reverse := by rw [hk]; exact List.mem_cons_self c k'
          exact List.mem_reverse.mp this
        simp [List.dropWhile, hnws c hc]
    rw [h₂, List.reverse_reverse]
  have hs := hstep (k.length + 1) k [] [] hne hall trivial trivial
  simp only [List.append_nil] at hs
  unfold parseProps
  rw [htrim]
  show parsePropsGo ((String.mk k).length + 2) k [] = _
  have hlen : (String.mk k).length + 2 = (k.length + 1) + 1 := by
    show k.length + 2 = (k.length + 1) + 1
    omega
  rw [hlen, hs]
  show propsSet [] (String.mk k) (Expression.mk "true" true) = _
  rfl

/-- Witness for C9 (amended): the single bare key `flag`, resolved in a
non-empty scope. -/
theorem C9_amended_witness :
    parseProps (String.mk "flag".data) =
      [(String.mk "flag".data, Expression.mk "true" true)] ∧
    resolveExpression (Expression.mk "true" true) [("flag", .bool false)] = .str "true" :=
  ⟨C9_amended.2.1 "flag".data (by decide) (by decide),
    C9_amended.2.2 [("flag", .bool false)]⟩

end Amps

namespace Amps

-- ─── Frontmatter parsing (`parser.ts`) ─────────────────────────────────────

/-- JS `s.split(sep)` for a single-character separator (never returns an
empty list). -/
def splitOnChar (c : Char) : List Char → List (List Char)
  | [] => [[]]
  | x :: rest =>
    let r := splitOnChar c rest
    if x = c then [] :: r
    else
      match r with
      | a :: as => (x :: a) :: as
      | [] => [[x]]

theorem splitOnChar_ne_nil (c : Char) (cs : List Char) : splitOnChar c cs ≠ [] := by
  induction cs with
  | nil => simp [splitOnChar]
  | cons x rest ih =>
    simp only [splitOnChar]
    split
    · simp
    · split
      · simp
      · simp

/-- The numeral test `/^-?\d+(\.\d+)?$/` of `parseYamlValue`. -/
def yamlNumberMatch (cs : List Char) : Bool :=
  let cs₁ := match cs with
    | '-' :: rest => rest
    | l => l
  let digits := cs₁.takeWhile Char.isDigit
  let rest := cs₁.dropWhile Char.isDigit
  !digits.isEmpty &&
    (rest.isEmpty ||
      (match rest with
        | '.' :: frac => !frac.isEmpty && frac.all Char.isDigit
        | _ => false))

/-- `Number(trimmed)` on a matched yaml numeral.  Integer numerals map to
`num`; fractional numerals are outside the modelled integer fragment and
map to `nan`. -/
def yamlNumberValue (cs : List Char) : Value :=
  let (sign, cs₁) : Int × List Char := match cs with
    | '-' :: rest => (-1, rest)
    | l => (1, l)
  let digits := cs₁.takeWhile Char.isDigit
  let rest := cs₁.dropWhile Char.isDigit
  match rest with
  | [] => .num (sign * (charsToNat digits : Int))
  | _ => .nan

/-- `parseYamlValue` from `parser.ts`: scalars, quoted strings, inline
lists (split on every comma, recursively parsed). -/
def parseYamlValue : Nat → String → Value
  | 0, _ => .null
  | fuel + 1, raw =>
    let trimmed := jsTrim raw
    if trimmed = "" ∨ trimmed = "~" ∨ trimmed = "null" then .null
    else if trimmed = "true" then .bool true
    else if trimmed = "false" then .bool false
    else if yamlNumberMatch trimmed.data then yamlNumberValue trimmed.data
    else if (listStartsWith trimmed.data 0 ['"'] ∧
        trimmed.data.getLast? = some '"') ∨
      (listStartsWith trimmed.data 0 [squote] ∧
        trimmed.data.getLast? = some squote) then
      .str (String.mk (sliceChars trimmed.data 1 (trimmed.length - 1)))
    else if listStartsWith trimmed.data 0 ['['] ∧ trimmed.data.getLast? = some ']' then
      .arr ((splitOnChar ',' (sliceChars trimmed.data 1 (trimmed.length - 1))).map
        (fun piece => parseYamlValue fuel (String.mk piece)))
    else .str trimmed

/-- A tokenised frontmatter line (`YamlLine` in `parser.ts`).  The empty
`value` string is represented as `none` (the source stores
`value || undefined`). -/
structure YamlLine where
  indent : Nat
  key : Option String := none
  value : Option String := none
  isDash : Bool
  dashValue : Option String := none
  raw : String
deriving Repr

/-- `tokenizeYaml` from `parser.ts`. -/
def tokenizeYaml (yaml : String) : List YamlLine :=
  (splitOnChar '\n' yaml.data).filterMap fun rawCs =>
    let rawS := String.mk rawCs
    let content := jsTrim rawS
    if content = "" ∨ listStartsWith content.data 0 ['#'] then none
    else
      let indent := (rawCs.takeWhile Char.isWhitespace).length
      if listStartsWith content.data 0 ['-', ' '] then
        some { indent, isDash := true,
               dashValue := some (jsTrim (String.mk (content.data.drop 2))),
               raw := rawS }
      else
        match findSubFrom content.data [':'] 0 with
        | some colonIdx =>
          let key := jsTrim (String.mk (content.data.take colonIdx))
          let v := jsTrim (String.mk (content.data.drop (colonIdx + 1)))
          some { indent, key := some key,
                 value := if v = "" then none else some v,
                 isDash := false, raw := rawS }
        | none =>
          some { indent, isDash := false, value := some content, raw := rawS }

/-- The dash-list collection loop inside `parseYamlBlock`: values of dash
lines while the indent exceeds the key's, plus the number of lines
consumed. -/
def collectDashes (tokIndent : Nat) : List YamlLine → List Value × Nat
  | [] => ([], 0)
  | t :: rest =>
    if t.indent > tokIndent then
      let vn := collectDashes tokIndent rest
      if t.isDash then
        ((parseYamlValue ((t.dashValue.getD "").length + 1) (t.dashValue.getD "")) :: vn.1,
          vn.2 + 1)
      else (vn.1, vn.2 + 1)
    else ([], 0)

/-- `parseYamlBlock` from `parser.ts` (fuelled on the recursion into nested
objects; the wrapper supplies ample fuel).  Returns the accumulated record
and the next token index. -/
def parseYamlBlockGo : Nat → List YamlLine → Nat → Nat → Int → Rec → Rec × Nat
  | 0, _, i, _, _, acc => (acc, i)
  | fuel + 1, tokens, i, start, parentIndent, acc =>
    match tokens.get? i with
    | none => (acc, i)
    | some tok =>
      if (tok.indent : Int) ≤ parentIndent ∧ i > start then (acc, i)
      else
        match tok.key with
        | some key =>
          match tok.value with
          | some v =>
            parseYamlBlockGo fuel tokens (i + 1) start parentIndent
              (recSet acc key (parseYamlValue (v.length + 1) v))
          | none =>
            match tokens.get? (i + 1) with
            | some next =>
              if next.indent > tok.indent then
                if next.isDash then
                  let an := collectDashes tok.indent (tokens.drop (i + 1))
                  parseYamlBlockGo fuel tokens (i + 1 + an.2) start parentIndent
                    (recSet acc key (.arr an.1))
                else
                  let ni := parseYamlBlockGo fuel tokens (i + 1) (i + 1) tok.indent []
                  parseYamlBlockGo fuel tokens ni.2 start parentIndent
                    (recSet acc key (.obj ni.1))
              else
                parseYamlBlockGo fuel tokens (i + 1) start parentIndent
                  (recSet acc key .null)
            | none =>
              parseYamlBlockGo fuel tokens (i + 1) start parentIndent
                (recSet acc key .null)
        | none => parseYamlBlockGo fuel tokens (i + 1) start parentIndent acc

/-- `parseYaml` from `parser.ts`. -/
def parseYaml (yaml : String) : Rec :=
  if jsTrim yaml = "" then []
  else
    let tokens := tokenizeYaml yaml
    (parseYamlBlockGo ((tokens.length + 2) * (tokens.length + 2)) tokens 0 0 (-1) []).1

/-- `parseOutputs` from `parser.ts`: a truthy array becomes the allow-list
(stringified element-wise); anything else means "no allow-list". -/
def parseOutputs (outputsVal : Value) : Option (List String) :=
  if toBool outputsVal = false then none
  else
    match outputsVal with
    | .arr l => some (l.map jsToString)
    | _ => none

end Amps

namespace Amps

-- ─── C7: output allow-list filtering ───────────────────────────────────────

theorem recFind_recSet (r : Rec) (k k₁ : String) (v : Value) :
    recFind (recSet r k₁ v) k = if k₁ = k then some v else recFind r k := by
  by_cases h : k₁ = k
  · subst h
    rw [if_pos rfl, recFind_recSet_self]
  · rw [if_neg h, recFind_recSet_ne r k k₁ v h]

theorem recFind_filterFold (all : Rec) (keys : List String) (acc : Rec) (k : String) :
    recFind (keys.foldl (fun a key =>
        if recHas all key then recSet a key (recGet all key) else a) acc) k
      = if k ∈ keys ∧ recHas all k = true then some (recGet all k)
        else recFind acc k := by
  induction keys generalizing acc with
  | nil => simp
  | cons key rest ih =>
    rw [List.foldl_cons, ih]
    by_cases hmem : k ∈ rest ∧ recHas all k = true
    · rw [if_pos hmem, if_pos ⟨List.mem_cons_of_mem _ hmem.1, hmem.2⟩]
    · rw [if_neg hmem]
      by_cases hk : key = k
      · subst hk
        cases hh : recHas all key with
        | true => simp [recFind_recSet_self]
        | false => simp
      · have hcond : ¬(k ∈ key :: rest ∧ recHas all k = true) := by
          rintro ⟨hm, h₂⟩
          rcases List.mem_cons.mp hm with he | hm'
          · exact hk he.symm
          · exact hmem ⟨hm', h₂⟩
        rw [if_neg hcond]
        cases hh : recHas all key with
        | true => simpa using recFind_recSet_ne acc k key (recGet all key) hk
        | false => simp

theorem parseYamlValue_arr_ne_nil (fuel : Nat) (s : String) (l : List Value)
    (h : parseYamlValue fuel s = .arr l) : l ≠ [] := by
  cases fuel with
  | zero => exact absurd h (by simp [parseYamlValue])
  | succ f =>
    unfold parseYamlValue at h
    simp only [] at h
    split_ifs at h with h₁ h₂ h₃ h₄ h₅ h₆ <;>
      first
      | exact Value.noConfusion h
      | (cases h
         intro hc
         exact splitOnChar_ne_nil ',' _ (by simpa using hc))
      | (unfold yamlNumberValue at h
         simp only [] at h
         split at h
         all_goals exact Value.noConfusion h)

theorem collectDashes_cons_ne_nil (tokIndent : Nat) (t : YamlLine)
    (rest : List YamlLine) (hind : t.indent > tokIndent) (hdash : t.isDash = true) :
    (collectDashes tokIndent (t :: rest)).1 ≠ [] := by
  unfold collectDashes
  simp only []
  rw [if_pos hind, if_pos hdash]
  simp

theorem get?_drop_cons {α : Type} : ∀ (l : List α) (n : Nat) (a : α),
    l.get? n = some a → l.drop n = a :: l.drop (n + 1) := by
  intro l
  induction l with
  | nil => intro n a h; cases n <;> simp [List.get?] at h
  | cons x xs ih =>
    intro n a h
    cases n with
    | zero =>
      simp [List.get?] at h
      subst h
      simp
    | succ m =>
      simp only [List.get?] at h
      simpa using ih m a h

theorem parseYamlBlockGo_arr_ne_nil (tokens : List YamlLine) :
    ∀ (fuel i start : Nat) (pi : Int) (acc : Rec),
      (∀ k l, recFind acc k = some (.arr l) → l ≠ []) →
      ∀ k l, recFind (parseYamlBlockGo fuel tokens i start pi acc).1 k
          = some (.arr l) → l ≠ [] := by
  intro fuel
  induction fuel with
  | zero =>
    intro i start pi acc hacc k l h
    simp only [parseYamlBlockGo] at h
    exact hacc k l h
  | succ f ih =>
    intro i start pi acc hacc k l h
    simp only [parseYamlBlockGo] at h
    split at h
    · exact hacc k l h
    · rename_i tok htok
      split at h
      · exact hacc k l h
      · split at h
        · rename_i key hkey
          split at h
          · rename_i v hval
            refine ih _ _ _ _ ?_ k l h
            intro k' l' h'
            rw [recFind_recSet] at h'
            split at h'
            · exact parseYamlValue_arr_ne_nil _ _ _ (Option.some.inj h')
            · exact hacc k' l' h'
          · split at h
            · rename_i next hnext
              split at h
              · split at h
                · rename_i hdash
                  refine ih _ _ _ _ ?_ k l h
                  intro k' l' h'
                  rw [recFind_recSet] at h'
                  split at h'
                  · injection Option.some.inj h' with heq₂
                    subst heq₂
                    rw [get?_drop_cons tokens (i + 1) next hnext]
                    exact collectDashes_cons_ne_nil _ _ _ (by assumption) hdash
                  · exact hacc k' l' h'
                · refine ih _ _ _ _ ?_ k l h
                  intro k' l' h'
                  rw [recFind_recSet] at h'
                  split at h'
                  · exact absurd h' (by simp)
                  · exact hacc k' l' h'
              · refine ih _ _ _ _ ?_ k l h
                intro k' l' h'
                rw [recFind_recSet] at h'
                split at h'
                · exact absurd h' (by simp)
                · exact hacc k' l' h'
            · refine ih _ _ _ _ ?_ k l h
              intro k' l' h'
              rw [recFind_recSet] at h'
              split at h'
              · exact absurd h' (by simp)
              · exact hacc k' l' h'
        · exact ih _ _ _ _ hacc k l h

theorem parseYaml_arr_ne_nil (y k : String) (l : List Value)
    (h : recFind (parseYaml y) k = some (.arr l)) : l ≠ [] := by
  unfold parseYaml at h
  split at h
  · simp [recFind] at h
  · exact parseYamlBlockGo_arr_ne_nil _ _ 0 0 (-1) []
      (by intro k' l' h'; simp [recFind] at h') k l h

theorem recHas_filterFold (all : Rec) (keys : List String) (k : String) :
    recHas (keys.foldl (fun a key =>
        if recHas all key then recSet a key (recGet all key) else a) []) k
      = (if k ∈ keys ∧ recHas all k = true then some (recGet all k)
         else recFind ([] : Rec) k).isSome :=
  congrArg Option.isSome (recFind_filterFold all keys [] k)

theorem recGet_filterFold (all : Rec) (keys : List String) (k : String) :
    recGet (keys.foldl (fun a key =>
        if recHas all key then recSet a key (recGet all key) else a) []) k
      = (if k ∈ keys ∧ recHas all k = true then some (recGet all k)
         else recFind ([] : Rec) k).getD Value.undef :=
  congrArg (fun o => o.getD Value.undef) (recFind_filterFold all keys [] k)

/-- A workflow with a declared allow-list: two Set nodes produce outputs
`a` and `b`, but only `a` (and the never-produced `missing`) are
allow-listed. -/
def c7wf : WorkflowDefinition :=
  { name := "w", description := none, inputs := [],
    outputs := some ["a", "missing"],
    nodes := [.set "a" ⟨"\x22x\x22", false⟩, .set "b" ⟨"\x22y\x22", false⟩] }

/-- The same workflow with no allow-list declared. -/
def c7wfAll : WorkflowDefinition := { c7wf with outputs := none }

/-- The execution state both runs of `c7wf`/`c7wfAll` end in. -/
def c7st : ExecSt :=
  { ctx := { inputs := [("inp", .num 1)],
             outputs := [("a", .str "x"), ("b", .str "y")],
             contextStack := [] },
    llmCalls := [] }

/-- **C7** — Output allow-list filtering.  (i) With no allow-list declared,
`execute` returns the full merged mapping of inputs and outputs.  (ii) With
a (nonempty) declared allow-list, the result contains exactly the
allow-listed keys that are present in the merged mapping — allow-listed
keys never produced are silently omitted — with their merged values.
(iii) An allow-list declared in frontmatter is always a nonempty list
(`parseOutputs` of a parsed `outputs:` value never yields `[]`), so the
`keys.length > 0` guard in `execute` never silently falls back to the full
mapping for a frontmatter-declared allow-list. -/
theorem C7_output_allowlist :
    (∀ (env : Env) (fuel : Nat) (wf : WorkflowDefinition) (inputs₀ : Rec)
        (res : Rec) (st : ExecSt),
        wf.outputs = none →
        executeWorkflow env fuel wf inputs₀ = .ok (res, st) →
        res = recMerge st.ctx.inputs st.ctx.outputs) ∧
    (∀ (env : Env) (fuel : Nat) (wf : WorkflowDefinition) (inputs₀ : Rec)
        (res : Rec) (st : ExecSt) (keys : List String),
        wf.outputs = some keys → keys ≠ [] →
        executeWorkflow env fuel wf inputs₀ = .ok (res, st) →
        ((∀ k, recHas res k = true ↔
            (k ∈ keys ∧ recHas (recMerge st.ctx.inputs st.ctx.outputs) k = true)) ∧
         (∀ k, recHas res k = true →
            recGet res k = recGet (recMerge st.ctx.inputs st.ctx.outputs) k))) ∧
    (∀ (y : String) (l : List String),
        parseOutputs (recGet (parseYaml y) "outputs") = some l → l ≠ []) := by
  refine ⟨?_, ?_, ?_⟩
  · intro env fuel wf inputs₀ res st hout h
    unfold executeWorkflow at h
    simp only [] at h
    split at h
    · exact absurd h (by simp)
    · rename_i st₁ heq
      simp only [hout] at h
      injection h with h₂
      injection h₂ with hres hst
      subst hres
      subst hst
      rfl
  · intro env fuel wf inputs₀ res st keys hout hne h
    unfold executeWorkflow at h
    simp only [] at h
    split at h
    · exact absurd h (by simp)
    · rename_i st₁ heq
      simp only [hout] at h
      rw [if_pos (List.length_pos.mpr hne)] at h
      injection h with h₂
      injection h₂ with hres hst
      subst hres
      subst hst
      constructor
      · intro k
        rw [recHas_filterFold]
        by_cases hc : k ∈ keys ∧
            recHas (recMerge st₁.ctx.inputs st₁.ctx.outputs) k = true
        · rw [if_pos hc]
          exact iff_of_true rfl hc
        · rw [if_neg hc]
          exact iff_of_false (by simp [recFind]) hc
      · intro k hk
        rw [recHas_filterFold] at hk
        rw [recGet_filterFold]
        by_cases hc : k ∈ keys ∧
            recHas (recMerge st₁.ctx.inputs st₁.ctx.outputs) k = true
        · rw [if_pos hc]
          rfl
        · rw [if_neg hc] at hk
          exact absurd hk (by simp [recFind])
  · intro y l h
    unfold parseOutputs at h
    split at h
    · exact absurd h (by simp)
    · split at h
      all_goals first
      | exact Option.noConfusion h
      | (rename_i l₀ heq
         injection h with h₂
         subst h₂
         have hfind : recFind (parseYaml y) "outputs" = some (.arr l₀) := by
           unfold recGet at heq
           cases hf : recFind (parseYaml y) "outputs" with
           | none =>
             rw [hf] at heq
             exact absurd heq (by simp)
           | some v =>
             rw [hf] at heq
             simp only [Option.getD] at heq
             rw [heq]
         simpa using parseYaml_arr_ne_nil y "outputs" l₀ hfind)

/-- Witness for C7: the allow-listed run of `c7wf` keeps `a` with its
merged value and drops the never-produced `missing` (and the unlisted `b`);
the run of `c7wfAll` returns the full merged mapping; and the frontmatter
`outputs:\n  - summary\n` declares the nonempty allow-list `["summary"]`. -/
theorem C7_output_allowlist_witness :
    ([("inp", Value.num 1), ("a", Value.str "x"), ("b", Value.str "y")]
        = recMerge c7st.ctx.inputs c7st.ctx.outputs) ∧
    (recHas [("a", Value.str "x")] "b" = true ↔
      ("b" ∈ ["a", "missing"] ∧
        recHas (recMerge c7st.ctx.inputs c7st.ctx.outputs) "b" = true)) ∧
    (recHas [("a", Value.str "x")] "a" = true →
      recGet [("a", Value.str "x")] "a"
        = recGet (recMerge c7st.ctx.inputs c7st.ctx.outputs) "a") ∧
    (["summary"] ≠ ([] : List String)) :=
  ⟨C7_output_allowlist.1 sampleEnv 5 c7wfAll [("inp", .num 1)]
      [("inp", Value.num 1), ("a", Value.str "x"), ("b", Value.str "y")] c7st
      rfl rfl,
   (C7_output_allowlist.2.1 sampleEnv 5 c7wf [("inp", .num 1)]
      [("a", Value.str "x")] c7st ["a", "missing"] rfl (by simp) rfl).1 "b",
   (C7_output_allowlist.2.1 sampleEnv 5 c7wf [("inp", .num 1)]
      [("a", Value.str "x")] c7st ["a", "missing"] rfl (by simp) rfl).2 "a",
   C7_output_allowlist.2.2 "outputs:\n  - summary\n" ["summary"] rfl⟩

end Amps

namespace Amps

-- ─── MDX body parsing (`parser.ts`): tag matching ──────────────────────────

def makeExpression (raw : String) : Expression := ⟨raw, false⟩

def makeStaticExpression (raw : String) : Expression := ⟨raw, true⟩

/-- The `[A-Z]` test of the tag-name regex. -/
def isUpperAZ (c : Char) : Bool := decide ('A' ≤ c ∧ c ≤ 'Z')

/-- `/^<([A-Z]\w*)/` applied to a slice: the tag name and the length of the
matched text (`<` plus the name). -/
def matchTagName (slice : List Char) : Option (String × Nat) :=
  match slice with
  | '<' :: c :: rest =>
    if isUpperAZ c then
      let tailName := rest.takeWhile isWordChar
      some (String.mk (c :: tailName), 2 + tailName.length)
    else none
  | _ => none

/-- `isComponentName` from `parser.ts` (`/^[A-Z]/`). -/
def isComponentName (name : String) : Bool :=
  match name.data with
  | c :: _ => isUpperAZ c
  | [] => false

/-- `lineAt` from `parser.ts`: `slice(0, pos).split("\n").length`. -/
def lineAt (source : List Char) (pos : Nat) : Nat :=
  (source.take pos).count '\n' + 1

/-- A matched tag (`TagMatch` in `parser.ts`); `stop` is the source's `end`
(index just after the tag). -/
structure TagMatch where
  name : String
  attrs : String
  start : Nat
  stop : Nat
deriving Repr

/-- The double-quoted-string skip loop inside `matchSelfClosingTag`
(entered just after the opening quote; returns the index just after the
closing quote). -/
def sctSkipDq : Nat → List Char → Nat → Nat
  | 0, _, i => i + 1
  | fuel + 1, slice, i =>
    if i < slice.length ∧ charAt slice i ≠ some '"' then
      if charAt slice i = some '\\' then sctSkipDq fuel slice (i + 2)
      else sctSkipDq fuel slice (i + 1)
    else i + 1

/-- The scan loop of `matchSelfClosingTag`: walks the slice from the end of
the tag name looking for `/>`, skipping braced and quoted spans; `none`
when it hits `>`, another `<`, an unterminated brace, or the end. -/
def msctGo : Nat → List Char → Nat → Option Nat
  | 0, _, _ => none
  | fuel + 1, slice, i =>
    if i ≥ slice.length then none
    else
      let ch := (charAt slice i).getD ' '
      if ch = obrace then
        match findMatchingBrace slice i with
        | none => none
        | some e => msctGo fuel slice (e + 1)
      else if ch = '"' then msctGo fuel slice (sctSkipDq (slice.length + 2) slice (i + 1))
      else if ch = '/' ∧ charAt slice (i + 1) = some '>' then some i
      else if ch = '>' then none
      else if ch = '<' then none
      else msctGo fuel slice (i + 1)

/-- `matchSelfClosingTag` from `parser.ts`. -/
def matchSelfClosingTag (source : List Char) (pos : Nat) : Option TagMatch :=
  if charAt source pos ≠ some '<' then none
  else
    let slice := source.drop pos
    if charAt slice 1 = some '/' then none
    else
      match matchTagName slice with
      | none => none
      | some nm =>
        match msctGo (slice.length + 2) slice nm.2 with
        | none => none
        | some i =>
          some { name := nm.1,
                 attrs := jsTrim (String.mk (sliceChars slice nm.2 i)),
                 start := pos, stop := pos + i + 2 }

/-- The scan loop of `matchOpeningTag`: walks the slice looking for the
closing `>`, skipping braced spans; `none` on `/>` (self-closing), an
unterminated brace, or the end. -/
def motGo : Nat → List Char → Nat → Option Nat
  | 0, _, _ => none
  | fuel + 1, slice, i =>
    if i ≥ slice.length then none
    else
      let ch := (charAt slice i).getD ' '
      if ch = obrace then
        match findMatchingBrace slice i with
        | none => none
        | some e => motGo fuel slice (e + 1)
      else if ch = '/' ∧ charAt slice (i + 1) = some '>' then none
      else if ch = '>' then some i
      else motGo fuel slice (i + 1)

/-- `matchOpeningTag` from `parser.ts`. -/
def matchOpeningTag (source : List Char) (pos : Nat) : Option TagMatch :=
  if charAt source pos ≠ some '<' then none
  else
    let slice := source.drop pos
    if charAt slice 1 = some '/' then none
    else
      match matchTagName slice with
      | none => none
      | some nm =>
        match motGo (slice.length + 2) slice nm.2 with
        | none => none
        | some i =>
          some { name := nm.1,
                 attrs := jsTrim (String.mk (sliceChars slice nm.2 i)),
                 start := pos, stop := pos + i + 1 }

/-- The closing-tag regex test inside `findClosingTag`:
`new RegExp("</" + tagName + "\\s*>")` matched at index 0 of
`source.slice(i)`; returns the length of the match. -/
def matchCloseAt (source : List Char) (i : Nat) (tagName : String) : Option Nat :=
  if listStartsWith source i ('<' :: '/' :: tagName.data) then
    let j := i + 2 + tagName.length
    let ws := (source.drop j).takeWhile Char.isWhitespace
    if charAt source (j + ws.length) = some '>' then
      some (2 + tagName.length + ws.length + 1)
    else none
  else none

/-- The depth-counting loop of `findClosingTag`. -/
def fctGo : Nat → List Char → String → Nat → Nat → Option Nat
  | 0, _, _, _, _ => none
  | fuel + 1, source, tagName, i, depth =>
    if i ≥ source.length then none
    else
      let scOk := match matchSelfClosingTag source i with
        | some m => if m.name = tagName then some m.stop else none
        | none => none
      match scOk with
      | some e => fctGo fuel source tagName e depth
      | none =>
        let opOk := match matchOpeningTag source i with
          | some m => if m.name = tagName then some m.stop else none
          | none => none
        match opOk with
        | some e => fctGo fuel source tagName e (depth + 1)
        | none =>
          match matchCloseAt source i tagName with
          | some len =>
            if depth = 1 then some i
            else fctGo fuel source tagName (i + len) (depth - 1)
          | none => fctGo fuel source tagName (i + 1) depth

/-- `findClosingTag` from `parser.ts` (`none` is the source's `-1`). -/
def findClosingTag (source : List Char) (tagName : String) (startIdx : Nat) :
    Option Nat :=
  fctGo (source.length + 2) source tagName startIdx 1

end Amps

namespace Amps

-- ─── MDX body parsing (`parser.ts`): node builders ─────────────────────────

/-- `ParseError` from `parser.ts` (message plus line number). -/
structure PErr where
  message : String
  line : Nat
deriving Repr, DecidableEq

/-- `splitOnTopLevelCommas` scan state walk (depth goes negative in the
source on unbalanced input, hence `Int`). -/
def sotcGo : List Char → Int → List Char → List (List Char) → List (List Char)
  | [], _, current, parts =>
    if jsTrim (String.mk current) = "" then parts else parts ++ [current]
  | ch :: rest, depth, current, parts =>
    if ch = obrace ∨ ch = '(' ∨ ch = '[' then
      sotcGo rest (depth + 1) (current ++ [ch]) parts
    else if ch = cbrace ∨ ch = ')' ∨ ch = ']' then
      sotcGo rest (depth - 1) (current ++ [ch]) parts
    else if ch = ',' ∧ depth = 0 then sotcGo rest depth [] (parts ++ [current])
    else sotcGo rest depth (current ++ [ch]) parts

/-- `splitOnTopLevelCommas` from `parser.ts`. -/
def splitOnTopLevelCommas (str : String) : List String :=
  (sotcGo str.data 0 [] []).map String.mk

/-- `parseObjectExpression` from `parser.ts`. -/
def parseObjectExpression (raw : String) : List (String × Expression) :=
  let inner := jsTrim raw
  let inner₂ :=
    if listStartsWith inner.data 0 [obrace] ∧ inner.data.getLast? = some cbrace then
      jsTrim (String.mk (sliceChars inner.data 1 (inner.length - 1)))
    else inner
  (splitOnTopLevelCommas inner₂).foldl (fun result entry =>
    match findSubFrom entry.data [':'] 0 with
    | none => result
    | some colonIdx =>
      propsSet result (jsTrim (String.mk (entry.data.take colonIdx)))
        (makeExpression (jsTrim (String.mk (entry.data.drop (colonIdx + 1)))))) []

/-- `props.name?.raw ?? ""`. -/
def propName (props : List (String × Expression)) : String :=
  ((propsFind props "name").map Expression.raw).getD ""

def buildGenerationNode (props : List (String × Expression)) : WorkflowNode :=
  .generation (propName props)
    ((propsFind props "model").map Expression.raw)
    ((propsFind props "temperature").map (fun e => jsToNumberV (.str e.raw)))
    ((propsFind props "maxTokens").map (fun e => jsToNumberV (.str e.raw)))
    ((propsFind props "stop").bind (fun e =>
      jsonParse (String.mk (e.raw.data.map (fun c => if c = squote then '"' else c)))))

def buildWebSearchNode (props : List (String × Expression)) : WorkflowNode :=
  .websearch (propName props)
    ((propsFind props "query").getD (makeStaticExpression ""))
    ((propsFind props "maxResults").map (fun e => jsToNumberV (.str e.raw)))
    ((propsFind props "provider").map Expression.raw)

def buildWebFetchNode (props : List (String × Expression)) : WorkflowNode :=
  .webfetch (propName props)
    ((propsFind props "url").getD (makeStaticExpression ""))
    ((propsFind props "maxTokens").map (fun e => jsToNumberV (.str e.raw)))
    ((propsFind props "selector").map Expression.raw)

def buildSetNode (props : List (String × Expression)) : WorkflowNode :=
  .set (propName props) ((propsFind props "value").getD (makeExpression "undefined"))

def buildFlowNode (props : List (String × Expression)) : WorkflowNode :=
  .flow (propName props) (((propsFind props "src").map Expression.raw).getD "")
    ((propsFind props "inputs").map (fun e => parseObjectExpression e.raw))

def buildPromptNode (props : List (String × Expression)) : WorkflowNode :=
  .prompt (propName props)
    ((propsFind props "message").getD (makeStaticExpression ""))
    (propsFind props "default")
    ((propsFind props "type").map Expression.raw)

def buildSelectNode (props : List (String × Expression)) : WorkflowNode :=
  .select (propName props)
    ((propsFind props "message").getD (makeStaticExpression ""))
    ((propsFind props "options").getD (makeExpression "[]"))
    ((propsFind props "labelKey").map Expression.raw)
    ((propsFind props "valueKey").map Expression.raw)

def buildConfirmNode (props : List (String × Expression)) : WorkflowNode :=
  .confirm (propName props)
    ((propsFind props "message").getD (makeStaticExpression ""))
    (propsFind props "default")

def buildLogNode (props : List (String × Expression)) (content : String) :
    WorkflowNode :=
  .log (some (((propsFind props "level").map Expression.raw).getD "info")) content

/-- The scan loop of `parseFieldChildren` (fuelled; the wrapper supplies
ample fuel for the nesting too). -/
def parseFieldChildrenGo : Nat → List Char → Nat → List FieldDef → List FieldDef
  | 0, _, _, fields => fields
  | fuel + 1, source, i, fields =>
    if i ≥ source.length then fields
    else
      let scF := match matchSelfClosingTag source i with
        | some sc => if sc.name = "Field" then some sc else none
        | none => none
      match scF with
      | some sc =>
        let props := parseProps sc.attrs
        parseFieldChildrenGo fuel source sc.stop (fields ++
          [FieldDef.mk ((propsFind props "name").map Expression.raw)
            (((propsFind props "type").map Expression.raw).getD "text")
            ((propsFind props "description").map Expression.raw) none])
      | none =>
        let opF := match matchOpeningTag source i with
          | some m =>
            if m.name = "Field" then
              match findClosingTag source "Field" m.stop with
              | some closeIdx => some (m, closeIdx)
              | none => none
            else none
          | none => none
        match opF with
        | some mc =>
          let inner := sliceChars source mc.1.stop mc.2
          let props := parseProps mc.1.attrs
          let children := parseFieldChildrenGo fuel inner 0 []
          parseFieldChildrenGo fuel source (mc.2 + 8) (fields ++
            [FieldDef.mk ((propsFind props "name").map Expression.raw)
              (((propsFind props "type").map Expression.raw).getD "text")
              ((propsFind props "description").map Expression.raw)
              (if children.length > 0 then some children else none)])
        | none => parseFieldChildrenGo fuel source (i + 1) fields

/-- `parseFieldChildren` from `parser.ts`. -/
def parseFieldChildren (source : List Char) : List FieldDef :=
  parseFieldChildrenGo ((source.length + 2) * (source.length + 2)) source 0 []

def buildStructuredNode (props : List (String × Expression)) (inner : List Char) :
    WorkflowNode :=
  .structured (propName props) ((propsFind props "model").map Expression.raw)
    (parseFieldChildren inner)

/-- `buildNodeFromSelfClosing` from `parser.ts`. -/
def buildNodeFromSelfClosing (tag : TagMatch) : Option WorkflowNode :=
  let props := parseProps tag.attrs
  if tag.name = "Generation" then some (buildGenerationNode props)
  else if tag.name = "WebSearch" then some (buildWebSearchNode props)
  else if tag.name = "WebFetch" then some (buildWebFetchNode props)
  else if tag.name = "Set" then some (buildSetNode props)
  else if tag.name = "Flow" then some (buildFlowNode props)
  else if tag.name = "Prompt" then some (buildPromptNode props)
  else if tag.name = "Select" then some (buildSelectNode props)
  else if tag.name = "Confirm" then some (buildConfirmNode props)
  else if tag.name = "Field" then none
  else if tag.name = "Log" then some (buildLogNode props "")
  else if tag.name = "Comment" then some .comment
  else some (.prose ("<" ++ tag.name ++ " />"))

end Amps

namespace Amps

/-- `flushProse` from `parseNodes`: push the trimmed prose buffer as a
prose node when nonempty. -/
def flushProse (buf : List Char) (nodes : List WorkflowNode) : List WorkflowNode :=
  let trimmed := jsTrim (String.mk buf)
  if trimmed = "" then nodes else nodes ++ [.prose trimmed]

/-- The whitespace/MDX-comment skip loop at the start of `tryParseElse`. -/
def tpeSkip : Nat → List Char → Nat → Nat
  | 0, _, i => i
  | fuel + 1, source, i =>
    if i ≥ source.length then i
    else if ((charAt source i).getD ' ').isWhitespace then tpeSkip fuel source (i + 1)
    else if listStartsWith source i [obrace, '/', '*'] then
      match findSubFrom source ['*', '/', cbrace] (i + 3) with
      | some e => tpeSkip fuel source (e + 3)
      | none => i
    else i

mutual

/-- The main loop of `parseNodes` from `parser.ts`: walks the source,
identifying MDX comments, self-closing tags, block tags (with `<Else>`
lookahead after an `<If>`), broken component tags (a `ParseError`), stray
closing tags, and prose.  Fuelled; fuel exhaustion returns the nodes
collected so far (the wrapper supplies ample fuel). -/
def parseNodesGo : Nat → List Char → Nat → List Char → List WorkflowNode →
    Except PErr (List WorkflowNode)
  | 0, _, _, _, nodes => .ok nodes
  | fuel + 1, source, i, buf, nodes =>
    if i ≥ source.length then .ok (flushProse buf nodes)
    else if charAt source i = some obrace ∧
        listStartsWith source i [obrace, '/', '*'] then
      let nodes₂ := flushProse buf nodes
      match findSubFrom source ['*', '/', cbrace] (i + 3) with
      | none => .ok nodes₂
      | some endComment =>
        parseNodesGo fuel source (endComment + 3) [] (nodes₂ ++ [.comment])
    else
      let scF := match matchSelfClosingTag source i with
        | some m => if isComponentName m.name then some m else none
        | none => none
      match scF with
      | some m =>
        let nodes₂ := flushProse buf nodes
        let nodes₃ := match buildNodeFromSelfClosing m with
          | some node => nodes₂ ++ [node]
          | none => nodes₂
        parseNodesGo fuel source m.stop [] nodes₃
      | none =>
        let opF := match matchOpeningTag source i with
          | some m => if isComponentName m.name then some m else none
          | none => none
        match opF with
        | some m =>
          let nodes₂ := flushProse buf nodes
          match findClosingTag source m.name m.stop with
          | none => .error ⟨"Unclosed <" ++ m.name ++ "> tag", lineAt source m.start⟩
          | some closeIdx =>
            let innerContent := sliceChars source m.stop closeIdx
            let closeTagEnd := closeIdx + (m.name.length + 3)
            match buildNodeFromBlock fuel m innerContent with
            | .error e => .error e
            | .ok none => parseNodesGo fuel source closeTagEnd [] nodes₂
            | .ok (some node) =>
              match node with
              | .ifNode cond children els =>
                match tryParseElse fuel source closeTagEnd with
                | .error e => .error e
                | .ok (some er) =>
                  parseNodesGo fuel source er.2 []
                    (nodes₂ ++ [.ifNode cond children (some er.1)])
                | .ok none =>
                  parseNodesGo fuel source closeTagEnd []
                    (nodes₂ ++ [.ifNode cond children els])
              | _ => parseNodesGo fuel source closeTagEnd [] (nodes₂ ++ [node])
        | none =>
          if charAt source i = some '<' then
            match matchTagName (source.drop i) with
            | some nm =>
              if isComponentName nm.1 then
                .error ⟨"Expected closing tag or self-closing for <" ++ nm.1 ++ ">",
                  lineAt source i⟩
              else parseNodesStray fuel source i buf nodes
            | none => parseNodesStray fuel source i buf nodes
          else
            parseNodesGo fuel source (i + 1) (buf ++ [(charAt source i).getD ' ']) nodes

/-- The stray-closing-tag handling at the bottom of the `parseNodes` loop:
skip `</...>` when a `>` exists, otherwise fall through to prose. -/
def parseNodesStray : Nat → List Char → Nat → List Char → List WorkflowNode →
    Except PErr (List WorkflowNode)
  | 0, _, _, _, nodes => .ok nodes
  | fuel + 1, source, i, buf, nodes =>
    if charAt source (i + 1) = some '/' then
      match findSubFrom source ['>'] i with
      | some endBracket => parseNodesGo fuel source (endBracket + 1) buf nodes
      | none => parseNodesGo fuel source (i + 1) (buf ++ [(charAt source i).getD ' ']) nodes
    else parseNodesGo fuel source (i + 1) (buf ++ [(charAt source i).getD ' ']) nodes

/-- `buildNodeFromBlock` from `parser.ts` (`Except` because `Loop`/`If`
bodies re-enter `parseNodes`, which can fail). -/
def buildNodeFromBlock : Nat → TagMatch → List Char →
    Except PErr (Option WorkflowNode)
  | 0, _, _ => .ok none
  | fuel + 1, tag, inner =>
    let props := parseProps tag.attrs
    if tag.name = "Structured" then .ok (some (buildStructuredNode props inner))
    else if tag.name = "Loop" then
      match buildLoopNode fuel props inner with
      | .error e => .error e
      | .ok node => .ok (some node)
    else if tag.name = "If" then
      match buildIfNode fuel props inner with
      | .error e => .error e
      | .ok node => .ok (some node)
    else if tag.name = "Else" then .ok none
    else if tag.name = "Log" then
      .ok (some (buildLogNode props (jsTrim (String.mk inner))))
    else if tag.name = "Comment" then .ok (some .comment)
    else if tag.name = "Generation" then .ok (some (buildGenerationNode props))
    else
      .ok (some (.prose ("<" ++ tag.name ++ ">" ++ String.mk inner ++
        "</" ++ tag.name ++ ">")))

/-- `buildLoopNode` from `parser.ts`. -/
def buildLoopNode : Nat → List (String × Expression) → List Char →
    Except PErr WorkflowNode
  | 0, _, _ => .ok (.loop "" none none [])
  | fuel + 1, props, inner =>
    match parseNodesGo fuel inner 0 [] [] with
    | .error e => .error e
    | .ok children =>
      .ok (.loop (propName props) (propsFind props "over")
        (propsFind props "count") children)

/-- `buildIfNode` from `parser.ts`. -/
def buildIfNode : Nat → List (String × Expression) → List Char →
    Except PErr WorkflowNode
  | 0, _, _ => .ok (.ifNode (makeExpression "false") [] none)
  | fuel + 1, props, inner =>
    match parseNodesGo fuel inner 0 [] [] with
    | .error e => .error e
    | .ok children =>
      .ok (.ifNode ((propsFind props "condition").getD (makeExpression "false"))
        children none)

/-- `tryParseElse` from `parser.ts`: look ahead for an `<Else>` block after
`</If>`; `.ok none` is the source's `null`. -/
def tryParseElse : Nat → List Char → Nat →
    Except PErr (Option (List WorkflowNode × Nat))
  | 0, _, _ => .ok none
  | fuel + 1, source, pos =>
    let i := tpeSkip (source.length + 2) source pos
    let scE := match matchSelfClosingTag source i with
      | some m => if m.name = "Else" then some m else none
      | none => none
    match scE with
    | some m => .ok (some ([], m.stop))
    | none =>
      let opE := match matchOpeningTag source i with
        | some m => if m.name = "Else" then some m else none
        | none => none
      match opE with
      | none => .ok none
      | some m =>
        match findClosingTag source "Else" m.stop with
        | none => .ok none
        | some closeIdx =>
          match parseNodesGo fuel (sliceChars source m.stop closeIdx) 0 [] [] with
          | .error e => .error e
          | .ok children => .ok (some (children, closeIdx + 7))

end

/-- `parseNodes` from `parser.ts`. -/
def parseNodes (source : String) : Except PErr (List WorkflowNode) :=
  parseNodesGo ((source.length + 2) * (source.length + 2)) source.data 0 [] []

end Amps

namespace Amps

-- ─── C8: unclosed-tag parse errors (helper lemmas) ─────────────────────────

theorem all_drop {l : List Char} {p : Char → Bool} (n : Nat) (h : l.all p = true) :
    (l.drop n).all p = true := by
  rw [List.all_eq_true] at h ⊢
  intro x hx
  exact h x (List.mem_of_mem_drop hx)

theorem get?_append_length {α : Type} (xs : List α) (y : α) (t : List α) :
    (xs ++ y :: t).get? xs.length = some y := by
  induction xs with
  | nil => rfl
  | cons a as ih => simpa using ih

theorem charAt_drop (source : List Char) (i : Nat) :
    charAt source i = (source.drop i).get? 0 := by
  unfold charAt
  rw [List.get?_drop]
  rfl

theorem drop_succ_of_drop (source : List Char) (i : Nat) {c : Char} {t : List Char}
    (h : source.drop i = c :: t) : source.drop (i + 1) = t := by
  have h₂ : source.drop (i + 1) = (source.drop i).drop 1 := (List.drop_drop 1 i source).symm
  rw [h₂, h]
  rfl

theorem charAt_of_drop (source : List Char) (i : Nat) {c : Char} {t : List Char}
    (h : source.drop i = c :: t) : charAt source i = some c := by
  rw [charAt_drop, h]
  rfl

theorem lt_length_of_drop (source : List Char) (i : Nat) {c : Char} {t : List Char}
    (h : source.drop i = c :: t) : i < source.length := by
  by_contra hge
  rw [List.drop_eq_nil_of_le (by omega)] at h
  exact List.noConfusion h

theorem matchSelfClosingTag_none_of_ne (source : List Char) (pos : Nat)
    (h : charAt source pos ≠ some '<') : matchSelfClosingTag source pos = none := by
  unfold matchSelfClosingTag
  rw [if_pos h]

theorem matchOpeningTag_none_of_ne (source : List Char) (pos : Nat)
    (h : charAt source pos ≠ some '<') : matchOpeningTag source pos = none := by
  unfold matchOpeningTag
  rw [if_pos h]

theorem listStartsWith_false_of_ne (source : List Char) (i : Nat) (c x : Char)
    (pat : List Char) (hc : charAt source i = some c) (hne : c ≠ x) :
    listStartsWith source i (x :: pat) = false := by
  unfold listStartsWith
  cases hd : source.drop i with
  | nil => rw [charAt_drop, hd] at hc; exact Option.noConfusion hc
  | cons c₁ t =>
    rw [charAt_drop, hd] at hc
    have : c₁ = c := Option.some.inj hc
    subst this
    simp [List.isPrefixOf]
    intro hcx
    exact absurd hcx hne.symm

/-- Walking safe prose: while the source contains neither `<` nor an
opening brace, the `parseNodes` loop only accumulates prose characters. -/
theorem parseNodesGo_prose_walk :
    ∀ (q : List Char) (f : Nat) (source : List Char) (i : Nat) (buf : List Char)
      (nodes : List WorkflowNode) (t : List Char),
      q.all (fun ch => !(ch == '<' || ch == obrace)) = true →
      source.drop i = q ++ t →
      parseNodesGo (q.length + f) source i buf nodes
        = parseNodesGo f source (i + q.length) (buf ++ q) nodes := by
  intro q
  induction q with
  | nil =>
    intro f source i buf nodes t _ _
    simp
  | cons ch q' ih =>
    intro f source i buf nodes t hall hdrop
    rw [List.all_cons, Bool.and_eq_true] at hall
    obtain ⟨hch, hall'⟩ := hall
    have hch' : ¬(ch = '<' ∨ ch = obrace) := by simpa using hch
    have hchar : charAt source i = some ch := charAt_of_drop source i hdrop
    have hlen : i < source.length := lt_length_of_drop source i hdrop
    have hdrop1 : source.drop (i + 1) = q' ++ t := drop_succ_of_drop source i hdrop
    have hmsct := matchSelfClosingTag_none_of_ne source i
      (by rw [hchar]; intro hcon; exact hch' (Or.inl (Option.some.inj hcon)))
    have hmot := matchOpeningTag_none_of_ne source i
      (by rw [hchar]; intro hcon; exact hch' (Or.inl (Option.some.inj hcon)))
    have hfuel : (ch :: q').length + f = (q'.length + f) + 1 := by
      simp only [List.length_cons]
      omega
    rw [hfuel]
    conv_lhs => rw [parseNodesGo]
    rw [if_neg (by omega : ¬ i ≥ source.length)]
    rw [if_neg (fun hcc => hch' (Or.inr (Option.some.inj (hchar ▸ hcc.1))))]
    simp only [hmsct, hmot, hchar, Option.getD_some]
    rw [if_neg (fun hcon => hch' (Or.inl (Option.some.inj hcon)))]
    rw [ih f source (i + 1) (buf ++ [ch]) nodes t hall' hdrop1]
    have h₁ : i + 1 + q'.length = i + (ch :: q').length := by
      simp only [List.length_cons]
      omega
    have h₂ : (buf ++ [ch]) ++ q' = buf ++ ch :: q' := by simp
    rw [h₁, h₂]

theorem msctGo_gt (slice : List Char) (j fuel : Nat)
    (hj : charAt slice j = some '>') (hlt : j < slice.length) :
    msctGo (fuel + 1) slice j = none := by
  conv_lhs => rw [msctGo]
  rw [if_neg (by omega)]
  simp only [hj, Option.getD_some]
  rw [if_neg (by decide), if_neg (by decide),
    if_neg (fun he => absurd he.1 (by decide))]
  simp

theorem motGo_gt (slice : List Char) (j fuel : Nat)
    (hj : charAt slice j = some '>') (hlt : j < slice.length) :
    motGo (fuel + 1) slice j = some j := by
  conv_lhs => rw [motGo]
  rw [if_neg (by omega)]
  simp only [hj, Option.getD_some]
  rw [if_neg (by decide), if_neg (fun he => absurd he.1 (by decide))]
  simp

/-- Characters that none of the attribute-scan loops react to. -/
def scanSafe (ch : Char) : Bool :=
  !(ch == obrace || ch == '"' || ch == '/' || ch == '>' || ch == '<')

theorem msctGo_none_safe : ∀ (fuel : Nat) (slice : List Char) (j : Nat),
    (slice.drop j).all scanSafe = true → msctGo fuel slice j = none := by
  intro fuel
  induction fuel with
  | zero => intro slice j _; rfl
  | succ f ih =>
    intro slice j h
    by_cases hj : j ≥ slice.length
    · conv_lhs => rw [msctGo]
      rw [if_pos hj]
    · cases hd : slice.drop j with
      | nil =>
        rw [List.drop_eq_nil_iff_le] at hd
        omega
      | cons ch rest =>
        have hchar : charAt slice j = some ch := charAt_of_drop slice j hd
        rw [hd, List.all_cons, Bool.and_eq_true] at h
        obtain ⟨hc, hrest⟩ := h
        obtain ⟨⟨⟨⟨h₁, h₂⟩, h₃⟩, h₄⟩, h₅⟩ :
            (((¬ch = obrace ∧ ¬ch = '"') ∧ ¬ch = '/') ∧ ¬ch = '>') ∧ ¬ch = '<' := by
          simpa [scanSafe] using hc
        conv_lhs => rw [msctGo]
        rw [if_neg hj]
        simp only [hchar, Option.getD_some]
        rw [if_neg h₁, if_neg h₂, if_neg (fun he => h₃ he.1), if_neg h₄, if_neg h₅]
        exact ih slice (j + 1) (by rw [drop_succ_of_drop slice j hd]; exact hrest)

theorem motGo_none_safe : ∀ (fuel : Nat) (slice : List Char) (j : Nat),
    (slice.drop j).all scanSafe = true → motGo fuel slice j = none := by
  intro fuel
  induction fuel with
  | zero => intro slice j _; rfl
  | succ f ih =>
    intro slice j h
    by_cases hj : j ≥ slice.length
    · conv_lhs => rw [motGo]
      rw [if_pos hj]
    · cases hd : slice.drop j with
      | nil =>
        rw [List.drop_eq_nil_iff_le] at hd
        omega
      | cons ch rest =>
        have hchar : charAt slice j = some ch := charAt_of_drop slice j hd
        rw [hd, List.all_cons, Bool.and_eq_true] at h
        obtain ⟨hc, hrest⟩ := h
        obtain ⟨⟨⟨⟨h₁, h₂⟩, h₃⟩, h₄⟩, h₅⟩ :
            (((¬ch = obrace ∧ ¬ch = '"') ∧ ¬ch = '/') ∧ ¬ch = '>') ∧ ¬ch = '<' := by
          simpa [scanSafe] using hc
        conv_lhs => rw [motGo]
        rw [if_neg hj]
        simp only [hchar, Option.getD_some]
        rw [if_neg h₁, if_neg (fun he => h₃ he.1), if_neg h₄]
        exact ih slice (j + 1) (by rw [drop_succ_of_drop slice j hd]; exact hrest)

theorem fctGo_none : ∀ (fuel : Nat) (source : List Char) (tag : String) (i depth : Nat),
    (source.drop i).all (fun ch => !(ch == '<')) = true →
    fctGo fuel source tag i depth = none := by
  intro fuel
  induction fuel with
  | zero => intro source tag i depth _; rfl
  | succ f ih =>
    intro source tag i depth h
    by_cases hj : i ≥ source.length
    · conv_lhs => rw [fctGo]
      rw [if_pos hj]
    · cases hd : source.drop i with
      | nil =>
        rw [List.drop_eq_nil_iff_le] at hd
        omega
      | cons ch rest =>
        have hchar : charAt source i = some ch := charAt_of_drop source i hd
        rw [hd, List.all_cons, Bool.and_eq_true] at h
        obtain ⟨hc, hrest⟩ := h
        have hne : ch ≠ '<' := by simpa using hc
        have hmsct := matchSelfClosingTag_none_of_ne source i
          (by rw [hchar]; intro hcon; exact hne (Option.some.inj hcon))
        have hmot := matchOpeningTag_none_of_ne source i
          (by rw [hchar]; intro hcon; exact hne (Option.some.inj hcon))
        have hclose : matchCloseAt source i tag = none := by
          unfold matchCloseAt
          rw [listStartsWith_false_of_ne source i ch '<' ('/' :: tag.data) hchar hne]
          simp
        conv_lhs => rw [fctGo]
        rw [if_neg hj]
        simp only [hmsct, hmot, hclose]
        exact ih source tag (i + 1) depth
          (by rw [drop_succ_of_drop source i hd]; exact hrest)

theorem matchTagName_eq (c : Char) (N' r' : List Char)
    (hupper : isUpperAZ c = true)
    (hword : N'.all isWordChar = true)
    (hr : ∀ ch, r'.head? = some ch → isWordChar ch = false) :
    matchTagName ('<' :: c :: (N' ++ r')) = some (String.mk (c :: N'), 2 + N'.length) := by
  cases r' with
  | nil =>
    obtain ⟨ht, _⟩ := takeWhile_all_append N' [] hword trivial
    simp only [matchTagName, ht, if_pos hupper]
  | cons ch t =>
    obtain ⟨ht, _⟩ := takeWhile_all_append N' (ch :: t) hword (hr ch rfl)
    simp only [matchTagName, ht, if_pos hupper]

theorem sliceChars_self (cs : List Char) (n : Nat) : sliceChars cs n n = [] := by
  unfold sliceChars
  exact List.drop_eq_nil_of_le (List.length_take_le n cs)

theorem drop_two_plus (c₁ c₂ : Char) (l : List Char) (k : Nat) :
    (c₁ :: c₂ :: l).drop (2 + k) = l.drop k := by
  rw [show 2 + k = (k + 1) + 1 by omega]
  simp

theorem msct_open_none (source : List Char) (pos : Nat) (c : Char) (N' r : List Char)
    (hdrop : source.drop pos = '<' :: c :: (N' ++ '>' :: r))
    (hupper : isUpperAZ c = true) (hword : N'.all isWordChar = true) :
    matchSelfClosingTag source pos = none := by
  have hchar : charAt source pos = some '<' := charAt_of_drop source pos hdrop
  have hcslash : c ≠ '/' := fun he => by subst he; exact absurd hupper (by decide)
  unfold matchSelfClosingTag
  rw [if_neg (by rw [hchar]; simp)]
  simp only [hdrop]
  have hc1 : charAt ('<' :: c :: (N' ++ '>' :: r)) 1 = some c := rfl
  rw [if_neg (fun hcc => hcslash (Option.some.inj (hc1.symm.trans hcc)))]
  have hgt : charAt ('<' :: c :: (N' ++ '>' :: r)) (2 + N'.length) = some '>' := by
    have h := get?_append_length ('<' :: c :: N') '>' r
    rw [show ('<' :: c :: N').length = 2 + N'.length by simp; omega] at h
    rw [show ('<' :: c :: N') ++ '>' :: r = '<' :: c :: (N' ++ '>' :: r) by simp] at h
    exact h
  have hlen : 2 + N'.length < ('<' :: c :: (N' ++ '>' :: r)).length := by
    simp [List.length_append]
    omega
  simp only [matchTagName_eq c N' ('>' :: r) hupper hword
    (fun ch h => Option.some.inj h ▸ (by decide : isWordChar '>' = false))]
  rw [show ('<' :: c :: (N' ++ '>' :: r)).length + 2
      = (('<' :: c :: (N' ++ '>' :: r)).length + 1) + 1 from rfl]
  simp only [msctGo_gt _ _ _ hgt hlen]

theorem mot_open_some (source : List Char) (pos : Nat) (c : Char) (N' r : List Char)
    (hdrop : source.drop pos = '<' :: c :: (N' ++ '>' :: r))
    (hupper : isUpperAZ c = true) (hword : N'.all isWordChar = true) :
    matchOpeningTag source pos
      = some ⟨String.mk (c :: N'), "", pos, pos + (2 + N'.length) + 1⟩ := by
  have hchar : charAt source pos = some '<' := charAt_of_drop source pos hdrop
  have hcslash : c ≠ '/' := fun he => by subst he; exact absurd hupper (by decide)
  unfold matchOpeningTag
  rw [if_neg (by rw [hchar]; simp)]
  simp only [hdrop]
  have hc1 : charAt ('<' :: c :: (N' ++ '>' :: r)) 1 = some c := rfl
  rw [if_neg (fun hcc => hcslash (Option.some.inj (hc1.symm.trans hcc)))]
  have hgt : charAt ('<' :: c :: (N' ++ '>' :: r)) (2 + N'.length) = some '>' := by
    have h := get?_append_length ('<' :: c :: N') '>' r
    rw [show ('<' :: c :: N').length = 2 + N'.length by simp; omega] at h
    rw [show ('<' :: c :: N') ++ '>' :: r = '<' :: c :: (N' ++ '>' :: r) by simp] at h
    exact h
  have hlen : 2 + N'.length < ('<' :: c :: (N' ++ '>' :: r)).length := by
    simp [List.length_append]
    omega
  simp only [matchTagName_eq c N' ('>' :: r) hupper hword
    (fun ch h => Option.some.inj h ▸ (by decide : isWordChar '>' = false))]
  rw [show ('<' :: c :: (N' ++ '>' :: r)).length + 2
      = (('<' :: c :: (N' ++ '>' :: r)).length + 1) + 1 from rfl]
  simp only [motGo_gt _ _ _ hgt hlen]
  simp [sliceChars_self]
  rfl

theorem msct_broken_none (source : List Char) (pos : Nat) (c : Char) (N' r : List Char)
    (hdrop : source.drop pos = '<' :: c :: (N' ++ r))
    (hupper : isUpperAZ c = true) (hword : N'.all isWordChar = true)
    (hrhead : ∀ ch, r.head? = some ch → isWordChar ch = false)
    (hrsafe : r.all scanSafe = true) :
    matchSelfClosingTag source pos = none := by
  have hchar : charAt source pos = some '<' := charAt_of_drop source pos hdrop
  have hcslash : c ≠ '/' := fun he => by subst he; exact absurd hupper (by decide)
  unfold matchSelfClosingTag
  rw [if_neg (by rw [hchar]; simp)]
  simp only [hdrop]
  have hc1 : charAt ('<' :: c :: (N' ++ r)) 1 = some c := rfl
  rw [if_neg (fun hcc => hcslash (Option.some.inj (hc1.symm.trans hcc)))]
  simp only [matchTagName_eq c N' r hupper hword hrhead]
  have hsafe : (('<' :: c :: (N' ++ r)).drop (2 + N'.length)).all scanSafe = true := by
    rw [drop_two_plus, List.drop_left]
    exact hrsafe
  simp only [msctGo_none_safe _ _ _ hsafe]

theorem mot_broken_none (source : List Char) (pos : Nat) (c : Char) (N' r : List Char)
    (hdrop : source.drop pos = '<' :: c :: (N' ++ r))
    (hupper : isUpperAZ c = true) (hword : N'.all isWordChar = true)
    (hrhead : ∀ ch, r.head? = some ch → isWordChar ch = false)
    (hrsafe : r.all scanSafe = true) :
    matchOpeningTag source pos = none := by
  have hchar : charAt source pos = some '<' := charAt_of_drop source pos hdrop
  have hcslash : c ≠ '/' := fun he => by subst he; exact absurd hupper (by decide)
  unfold matchOpeningTag
  rw [if_neg (by rw [hchar]; simp)]
  simp only [hdrop]
  have hc1 : charAt ('<' :: c :: (N' ++ r)) 1 = some c := rfl
  rw [if_neg (fun hcc => hcslash (Option.some.inj (hc1.symm.trans hcc)))]
  simp only [matchTagName_eq c N' r hupper hword hrhead]
  have hsafe : (('<' :: c :: (N' ++ r)).drop (2 + N'.length)).all scanSafe = true := by
    rw [drop_two_plus, List.drop_left]
    exact hrsafe
  simp only [motGo_none_safe _ _ _ hsafe]

theorem parseNodesGo_unclosed_step (f : Nat) (source : List Char) (i : Nat)
    (c : Char) (N' r : List Char) (buf : List Char) (nodes : List WorkflowNode)
    (hdrop : source.drop i = '<' :: c :: (N' ++ '>' :: r))
    (hupper : isUpperAZ c = true) (hword : N'.all isWordChar = true)
    (hr : r.all (fun ch => !(ch == '<')) = true) :
    parseNodesGo (f + 1) source i buf nodes
      = .error ⟨"Unclosed <" ++ String.mk (c :: N') ++ "> tag", lineAt source i⟩ := by
  have hchar : charAt source i = some '<' := charAt_of_drop source i hdrop
  have hlen : i < source.length := lt_length_of_drop source i hdrop
  have hmsct := msct_open_none source i c N' r hdrop hupper hword
  have hmot := mot_open_some source i c N' r hdrop hupper hword
  have hcomp : isComponentName (String.mk (c :: N')) = true := by
    simpa [isComponentName] using hupper
  have hfct : findClosingTag source (String.mk (c :: N')) (i + (2 + N'.length) + 1)
      = none := by
    unfold findClosingTag
    apply fctGo_none
    rw [show i + (2 + N'.length) + 1 = i + (2 + N'.length + 1) by omega,
      ← List.drop_drop (2 + N'.length + 1) i source, hdrop,
      show 2 + N'.length + 1 = 2 + (N'.length + 1) by omega, drop_two_plus,
      ← List.drop_drop 1 N'.length (N' ++ '>' :: r), List.drop_left]
    simpa using hr
  conv_lhs => rw [parseNodesGo]
  rw [if_neg (by omega)]
  rw [if_neg (fun hcc => by
    rw [hchar] at hcc
    exact absurd (Option.some.inj hcc.1) (by decide))]
  simp [hmsct, hmot, hcomp, hfct]

theorem parseNodesGo_broken_step (f : Nat) (source : List Char) (i : Nat)
    (c : Char) (N' r : List Char) (buf : List Char) (nodes : List WorkflowNode)
    (hdrop : source.drop i = '<' :: c :: (N' ++ r))
    (hupper : isUpperAZ c = true) (hword : N'.all isWordChar = true)
    (hrhead : ∀ ch, r.head? = some ch → isWordChar ch = false)
    (hrsafe : r.all scanSafe = true) :
    parseNodesGo (f + 1) source i buf nodes
      = .error ⟨"Expected closing tag or self-closing for <" ++ String.mk (c :: N') ++ ">",
          lineAt source i⟩ := by
  have hchar : charAt source i = some '<' := charAt_of_drop source i hdrop
  have hlen : i < source.length := lt_length_of_drop source i hdrop
  have hmsct := msct_broken_none source i c N' r hdrop hupper hword hrhead hrsafe
  have hmot := mot_broken_none source i c N' r hdrop hupper hword hrhead hrsafe
  have hcomp : isComponentName (String.mk (c :: N')) = true := by
    simpa [isComponentName] using hupper
  have htag := matchTagName_eq c N' r hupper hword hrhead
  conv_lhs => rw [parseNodesGo]
  rw [if_neg (by omega)]
  rw [if_neg (fun hcc => by
    rw [hchar] at hcc
    exact absurd (Option.some.inj hcc.1) (by decide))]
  simp [hmsct, hmot, hchar, hdrop, htag, hcomp]

set_option maxRecDepth 4096

/-- **C8 counterexample** — the claim says the thrown `ParseError` carries
the line number of the offending tag.  In the document
`a\n<If condition={true}>\nx\n<Loop>\n</If>` the only occurrence of
`<Loop` starts at index 26, which is on line 4, yet parsing fails with
`Unclosed <Loop> tag` carrying line 3: the unclosed tag sits inside an
`<If>` block, and the `If` body is re-parsed as a fresh string, so
`lineAt` is computed relative to the inner content, not the document. -/
theorem C8_counterexample :
    parseNodes "a\n<If condition=\x7btrue\x7d>\nx\n<Loop>\n</If>"
      = .error ⟨"Unclosed <Loop> tag", 3⟩ ∧
    listStartsWith "a\n<If condition=\x7btrue\x7d>\nx\n<Loop>\n</If>".data 26
      ('<' :: 'L' :: 'o' :: 'o' :: 'p' :: []) = true ∧
    lineAt "a\n<If condition=\x7btrue\x7d>\nx\n<Loop>\n</If>".data 26 = 4 ∧
    (List.range "a\n<If condition=\x7btrue\x7d>\nx\n<Loop>\n</If>".length).all
      (fun j => !(listStartsWith "a\n<If condition=\x7btrue\x7d>\nx\n<Loop>\n</If>".data j
        ('<' :: 'L' :: 'o' :: 'o' :: 'p' :: [])) || (j == 26)) = true :=
  ⟨rfl, rfl, rfl, rfl⟩

/-- **C8 (amended)** — What is actually guaranteed about unclosed-tag
errors, relative to the string handed to `parseNodes` (not the document:
see the counterexample for the nested case).  (i) A component tag opened at
top level (safe prose before it, no further `<` after it) fails with
`Unclosed <N> tag` carrying the line of that tag's `<`.  (ii) A `<` +
PascalCase name never completed by `>` or `/>` fails with
`Expected closing tag or self-closing for <N>` carrying the line of the
`<`.  (iii) Documents containing no `<` and no `{` parse without any
`ParseError`, yielding their trimmed prose. -/
theorem C8_amended :
    (∀ (p : List Char) (c : Char) (N' r : List Char),
        p.all (fun ch => !(ch == '<' || ch == obrace)) = true →
        isUpperAZ c = true → N'.all isWordChar = true →
        r.all (fun ch => !(ch == '<')) = true →
        parseNodes (String.mk (p ++ '<' :: c :: (N' ++ '>' :: r)))
          = .error ⟨"Unclosed <" ++ String.mk (c :: N') ++ "> tag",
              lineAt (p ++ '<' :: c :: (N' ++ '>' :: r)) p.length⟩ ∧
        lineAt (p ++ '<' :: c :: (N' ++ '>' :: r)) p.length = p.count '\n' + 1) ∧
    (∀ (p : List Char) (c : Char) (N' r : List Char),
        p.all (fun ch => !(ch == '<' || ch == obrace)) = true →
        isUpperAZ c = true → N'.all isWordChar = true →
        (∀ ch, r.head? = some ch → isWordChar ch = false) →
        r.all scanSafe = true →
        parseNodes (String.mk (p ++ '<' :: c :: (N' ++ r)))
          = .error ⟨"Expected closing tag or self-closing for <" ++
                String.mk (c :: N') ++ ">",
              lineAt (p ++ '<' :: c :: (N' ++ r)) p.length⟩ ∧
        lineAt (p ++ '<' :: c :: (N' ++ r)) p.length = p.count '\n' + 1) ∧
    (∀ s : List Char,
        s.all (fun ch => !(ch == '<' || ch == obrace)) = true →
        parseNodes (String.mk s) = .ok (flushProse s [])) := by
  refine ⟨?_, ?_, ?_⟩
  · intro p c N' r hp hupper hword hr
    have hline : lineAt (p ++ '<' :: c :: (N' ++ '>' :: r)) p.length
        = p.count '\n' + 1 := by
      unfold lineAt
      rw [List.take_left]
    refine ⟨?_, hline⟩
    unfold parseNodes
    have hdata : (String.mk (p ++ '<' :: c :: (N' ++ '>' :: r))).data
        = p ++ '<' :: c :: (N' ++ '>' :: r) := rfl
    have hslen : (String.mk (p ++ '<' :: c :: (N' ++ '>' :: r))).length
        = (p ++ '<' :: c :: (N' ++ '>' :: r)).length := rfl
    rw [hdata, hslen]
    have h1 : (p ++ '<' :: c :: (N' ++ '>' :: r)).length + 2
        ≤ ((p ++ '<' :: c :: (N' ++ '>' :: r)).length + 2)
          * ((p ++ '<' :: c :: (N' ++ '>' :: r)).length + 2) :=
      Nat.le_mul_of_pos_left _ (by omega)
    have h2 : p.length ≤ (p ++ '<' :: c :: (N' ++ '>' :: r)).length := by
      rw [List.length_append]
      omega
    rw [show ((p ++ '<' :: c :: (N' ++ '>' :: r)).length + 2)
          * ((p ++ '<' :: c :: (N' ++ '>' :: r)).length + 2)
        = p.length + ((((p ++ '<' :: c :: (N' ++ '>' :: r)).length + 2)
          * ((p ++ '<' :: c :: (N' ++ '>' :: r)).length + 2) - p.length - 1) + 1)
      by omega]
    rw [parseNodesGo_prose_walk p _ _ 0 [] [] ('<' :: c :: (N' ++ '>' :: r)) hp
      (by rw [List.drop_zero])]
    simp only [Nat.zero_add, List.nil_append]
    rw [parseNodesGo_unclosed_step _ _ p.length c N' r p []
      (by rw [List.drop_left]) hupper hword hr]
  · intro p c N' r hp hupper hword hrhead hrsafe
    have hline : lineAt (p ++ '<' :: c :: (N' ++ r)) p.length
        = p.count '\n' + 1 := by
      unfold lineAt
      rw [List.take_left]
    refine ⟨?_, hline⟩
    unfold parseNodes
    have hdata : (String.mk (p ++ '<' :: c :: (N' ++ r))).data
        = p ++ '<' :: c :: (N' ++ r) := rfl
    have hslen : (String.mk (p ++ '<' :: c :: (N' ++ r))).length
        = (p ++ '<' :: c :: (N' ++ r)).length := rfl
    rw [hdata, hslen]
    have h1 : (p ++ '<' :: c :: (N' ++ r)).length + 2
        ≤ ((p ++ '<' :: c :: (N' ++ r)).length + 2)
          * ((p ++ '<' :: c :: (N' ++ r)).length + 2) :=
      Nat.le_mul_of_pos_left _ (by omega)
    have h2 : p.length ≤ (p ++ '<' :: c :: (N' ++ r)).length := by
      rw [List.length_append]
      omega
    rw [show ((p ++ '<' :: c :: (N' ++ r)).length + 2)
          * ((p ++ '<' :: c :: (N' ++ r)).length + 2)
        = p.length + ((((p ++ '<' :: c :: (N' ++ r)).length + 2)
          * ((p ++ '<' :: c :: (N' ++ r)).length + 2) - p.length - 1) + 1)
      by omega]
    rw [parseNodesGo_prose_walk p _ _ 0 [] [] ('<' :: c :: (N' ++ r)) hp
      (by rw [List.drop_zero])]
    simp only [Nat.zero_add, List.nil_append]
    rw [parseNodesGo_broken_step _ _ p.length c N' r p []
      (by rw [List.drop_left]) hupper hword hrhead hrsafe]
  · intro s hall
    unfold parseNodes
    have hdata : (String.mk s).data = s := rfl
    have hslen : (String.mk s).length = s.length := rfl
    rw [hdata, hslen]
    have h1 : s.length + 2 ≤ (s.length + 2) * (s.length + 2) :=
      Nat.le_mul_of_pos_left _ (by omega)
    rw [show (s.length + 2) * (s.length + 2)
        = s.length + (((s.length + 2) * (s.length + 2) - s.length - 1) + 1) by omega]
    rw [parseNodesGo_prose_walk s _ s 0 [] [] [] hall
      (by rw [List.drop_zero, List.append_nil])]
    conv_lhs => rw [parseNodesGo]
    rw [if_pos (by omega : 0 + s.length ≥ s.length)]
    simp only [List.nil_append]

/-- Witness for C8 (amended): `pre\n<Loop>\ntail` fails with
`Unclosed <Loop> tag` at line 2 (the tag's line); `<Foo name=x` fails with
the broken-tag error at line 1; and a two-line prose document parses
without error. -/
theorem C8_amended_witness :
    (parseNodes (String.mk ("pre\n".data ++ '<' :: 'L' :: ("oop".data ++ '>' :: "\ntail".data)))
        = .error ⟨"Unclosed <" ++ String.mk ('L' :: "oop".data) ++ "> tag",
            lineAt ("pre\n".data ++ '<' :: 'L' :: ("oop".data ++ '>' :: "\ntail".data))
              "pre\n".data.length⟩ ∧
      lineAt ("pre\n".data ++ '<' :: 'L' :: ("oop".data ++ '>' :: "\ntail".data))
          "pre\n".data.length = "pre\n".data.count '\n' + 1) ∧
    (parseNodes (String.mk (([] : List Char) ++ '<' :: 'F' :: ("oo".data ++ " name=x".data)))
        = .error ⟨"Expected closing tag or self-closing for <" ++
              String.mk ('F' :: "oo".data) ++ ">",
            lineAt (([] : List Char) ++ '<' :: 'F' :: ("oo".data ++ " name=x".data))
              ([] : List Char).length⟩ ∧
      lineAt (([] : List Char) ++ '<' :: 'F' :: ("oo".data ++ " name=x".data))
          ([] : List Char).length = ([] : List Char).count '\n' + 1) ∧
    parseNodes (String.mk "just prose\nline2".data)
      = .ok (flushProse "just prose\nline2".data []) :=
  ⟨C8_amended.1 "pre\n".data 'L' "oop".data "\ntail".data rfl (by decide) (by decide) rfl,
   C8_amended.2.1 [] 'F' "oo".data " name=x".data rfl (by decide) (by decide)
     (fun ch h => Option.some.inj h ▸ (by decide : isWordChar ' ' = false)) rfl,
   C8_amended.2.2 "just prose\nline2".data rfl⟩

end Amps
